import Mathlib

/-!
# Verification of the multimodal_ragserver core against its specification

Shallow embedding of the ingestion-and-retrieval core of the repository
(`ragserver`): the metadata / fingerprint model (`ragserver/core/metadata.py`),
the vector store manager (`ragserver/store/vector_store_manager.py`,
`ragserver/store/chroma_manager.py`), the space-key derivation
(`ragserver/embed/util.py`), the loaders (`ragserver/ingest/file_loader.py`,
`ragserver/ingest/html_loader.py`), the HF reranker
(`ragserver/rerank/hf_rerank_manager.py`) and the retriever
(`ragserver/retrieval/retriever.py`).

Python values that flow through metadata dictionaries are modelled by `PyVal`
(`None`, `int`/`float` on which only equality is observed, `str`); Python
dictionaries by association lists with first-match lookup; exceptions by
`Except String`; external collaborators (the vector-database client, the text
splitter, the HTTP reranker backend, `uuid.uuid5`) by function parameters.
-/

namespace Rag

/-- A Python scalar stored in a metadata dictionary: `None`, an `int` (the
code never does arithmetic on fingerprint numbers, only equality, so `float`
mtimes are represented by the same constructor), or a `str`. -/
inductive PyVal where
  | vNone : PyVal
  | vInt : Int → PyVal
  | vStr : String → PyVal
  deriving DecidableEq, Repr

open PyVal

/-- Python `str(v)`, as used by f-strings when composing stable-id keys. -/
def pyStr : PyVal → String
  | vNone => "None"
  | vInt i => toString i
  | vStr s => s

/-- A Python `dict[str, Any]` (metadata or fingerprint dictionary): an
association list with first-match lookup. -/
def Dict := List (String × PyVal)

instance : DecidableEq Dict := by unfold Dict; infer_instance
instance : Repr Dict := by unfold Dict; infer_instance

/-- Python `d.get(k)`: the stored value, or `None` when the key is absent
(`.get` conflates the two exactly like this). -/
def Dict.get (d : Dict) (k : String) : PyVal :=
  match d.find? (fun p => p.1 = k) with
  | some p => p.2
  | none => vNone

/-- Python `d[k]`: `none` models the `KeyError` on an absent key. -/
def Dict.getItem (d : Dict) (k : String) : Option PyVal :=
  (d.find? (fun p => p.1 = k)).map (fun p => p.2)

/-- Python `k in d`. -/
def Dict.contains (d : Dict) (k : String) : Bool :=
  d.any (fun p => p.1 = k)

/-- Python `d[k] = v`: replace the binding if present, else append. -/
def Dict.set (d : Dict) (k : String) (v : PyVal) : Dict :=
  match d with
  | [] => [(k, v)]
  | p :: rest => if p.1 = k then (k, v) :: rest else p :: Dict.set rest k v

/-- A langchain `Document`: a payload (text chunk or image path) plus a
metadata dictionary. -/
structure Document where
  page_content : String
  metadata : Dict
  deriving DecidableEq, Repr

/-! ## `ragserver/core/metadata.py` -/

/-- `META_KEYS` (class constants in `ragserver/core/metadata.py`). -/
def FP_SIZE : String := "fingerprint_size"
def FP_MTIME : String := "fingerprint_mtime"
def FP_SHA : String := "fingerprint_sha256_head"
def KEY_ID : String := "id"
def KEY_SOURCE : String := "source"
def KEY_SPACE_KEY : String := "space_key"
def KEY_EMBED_TYPE : String := "embed_type"
def KEY_PAGE : String := "page"
def KEY_CHUNK_NO : String := "chunk_no"
def KEY_IMAGE_NO : String := "image_no"
def KEY_BASE_SOURCE : String := "base_source"

def EMBTYPE_TEXT : String := "text"
def EMBTYPE_IMAGE : String := "image"

def PROJECT_NAME : String := "ragserver"

/-- `FINGERPRINT_KEYS` as a list (the Python set is only iterated, and every
use is order-independent). -/
def FINGERPRINT_KEYS : List String := [FP_SIZE, FP_MTIME, FP_SHA]

/-- `DUMMY_FINGERPRINT`: the reserved sentinel triple registered for sources
without a real fingerprint (URLs).  `_INT_DEFAULT = -1`, `_FLOAT_DEFAULT = -1`
(a Python int), `_STR_DEFAULT = ""`. -/
def DUMMY_FINGERPRINT : Dict :=
  [(FP_SIZE, vInt (-1)), (FP_MTIME, vInt (-1)), (FP_SHA, vStr "")]

/-- `stable_id_from` (`ragserver/core/metadata.py`): UUIDv5 of `key` inside a
project-namespaced root UUID (itself the UUIDv5, in the RFC 4122 URL
namespace, of `"https://ragserver/namespace"`).  The stdlib hash
`uuid.uuid5 : (namespace, name) -> uuid` is an external collaborator and is
passed as the function parameter `uuid5`, namespaces rendered as strings. -/
def NAMESPACE_URL : String := "6ba7b811-9dad-11d1-80b4-00c04fd430c8"

def stable_id_from (uuid5 : String → String → String) (key : String) : String :=
  uuid5 (uuid5 NAMESPACE_URL ("https://" ++ PROJECT_NAME ++ "/namespace")) key

/-! ## Fingerprint logic of `VectorStoreManager`
(`ragserver/store/vector_store_manager.py`) -/

/-- The fingerprint cache `self._fingerprint_cache : dict[str, Optional[dict]]`.
Keys are the raw `source` metadata values (Python allows any hashable key,
including `None`). -/
def FpCache := List (PyVal × Option Dict)

instance : DecidableEq FpCache := by unfold FpCache; infer_instance

/-- Python `cache.get(source)` (used with `is None` / `is not None` checks):
absent keys and stored `None` both yield `none`. -/
def FpCache.get (c : FpCache) (k : PyVal) : Option Dict :=
  match c.find? (fun p => p.1 = k) with
  | some p => p.2
  | none => none

/-- Python `source in cache`. -/
def FpCache.contains (c : FpCache) (k : PyVal) : Bool :=
  c.any (fun p => p.1 = k)

/-- Python `cache[source]` on a key known to be present (`none` = `KeyError`). -/
def FpCache.getItem (c : FpCache) (k : PyVal) : Option (Option Dict) :=
  (c.find? (fun p => p.1 = k)).map (fun p => p.2)

/-- Python `cache[source] = v`. -/
def FpCache.set (c : FpCache) (k : PyVal) (v : Option Dict) : FpCache :=
  match c with
  | [] => [(k, v)]
  | p :: rest => if p.1 = k then (k, v) :: rest else p :: FpCache.set rest k v

/-- `VectorStoreManager._extract_fingerprint`: pull the three fingerprint keys
out of a metadata dictionary; if any is absent (`metadata.get(key) is None`,
e.g. URL sources) return `DUMMY_FINGERPRINT`. -/
def extract_fingerprint_go (metadata : Dict) : List String → Dict → Dict
  | [], fp => fp
  | key :: keys, fp =>
    if metadata.get key = vNone then DUMMY_FINGERPRINT
    else extract_fingerprint_go metadata keys (fp.set key (metadata.get key))

def extract_fingerprint (metadata : Dict) : Dict :=
  extract_fingerprint_go metadata FINGERPRINT_KEYS []

/-- `VectorStoreManager._fingerprint_equals`: `True` iff for every fingerprint
key the current value is not `None` and the stored value equals it. -/
def fingerprint_equals (stored current : Dict) : Bool :=
  FINGERPRINT_KEYS.all fun key =>
    (current.get key != vNone) && (stored.get key == current.get key)

/-- The per-document keep decision inside
`VectorStoreManager._filter_docs_by_fingerprint` (the loop body): keep when
the source is `None`, when the source is not a key of the cache, when the
cached entry is `None`, or when the cached fingerprint differs from the
extracted one; drop when they are equal. -/
def keep_doc (cache : FpCache) (doc : Document) : Bool :=
  let source := doc.metadata.get KEY_SOURCE
  if source = vNone then true
  else if ¬ cache.contains source then true
  else
    match cache.getItem source with
    | none => true
    | some none => true
    | some (some existing_fp) =>
      ¬ fingerprint_equals existing_fp (extract_fingerprint doc.metadata)

/-- `VectorStoreManager._filter_docs_by_fingerprint`. -/
def filter_docs_by_fingerprint (cache : FpCache) (docs : List Document) :
    List Document :=
  docs.filter (keep_doc cache)

/-- `VectorStoreManager.skip_update`: true iff `check_update` is off and the
source has a non-`None` cache entry. -/
def skip_update (check_update : Bool) (cache : FpCache) (source : PyVal) : Bool :=
  (!check_update) && (cache.get source).isSome

/-! ## Store manager state and operations
(`vector_store_manager.py`, `chroma_manager.py`, `pgvector_manager.py`) -/

/-- The operations of one vector-database collection handle (a langchain
`Chroma` / `PGVector` object).  Each operation may raise (`Except.error`). -/
structure Backend where
  delete : List PyVal → Except String Unit
  add_documents : List Document → List PyVal → Except String (List PyVal)
  add_images : List String → List Dict → List PyVal → Except String Unit
  search : List Int → Nat → Option Dict → Except String (List Document)

/-- Generic assoc-list update, used for `self._stores[space_key] = store`. -/
def assocSet {α : Type} : List (String × α) → String → α → List (String × α)
  | [], k, v => [(k, v)]
  | p :: rest, k, v => if p.1 = k then (k, v) :: rest else p :: assocSet rest k v

def assocGet {α : Type} (l : List (String × α)) (k : String) : Option α :=
  (l.find? (fun p => p.1 = k)).map (fun p => p.2)

/-- The mutable fields of a concrete manager (`ChromaManager` /
`PgVectorManager`) that the upsert/query paths read and write. -/
structure MgrState where
  active_space : String
  stores : List (String × Backend)
  active_store : Option Backend
  cache : FpCache

/-- `activate_space` (identical in both concrete managers): no-op when the
key is already active; log-and-return leaving the state unchanged when the
key is not in `self._stores`; otherwise swap the active pointer. -/
def activate_space (st : MgrState) (key : String) : MgrState :=
  if st.active_space = key then st
  else
    match assocGet st.stores key with
    | none => st
    | some b => { st with active_space := key, active_store := some b }

def activate_opt (st : MgrState) : Option String → MgrState
  | some k => activate_space st k
  | none => st

/-- `ids.append(doc.metadata[MK.ID])` over a document list; `none` models the
`KeyError` when a document has no `id` key. -/
def collect_ids : List Document → Option (List PyVal)
  | [] => some []
  | d :: rest =>
    match d.metadata.getItem KEY_ID with
    | none => none
    | some v => (collect_ids rest).map (fun ids => v :: ids)

/-- Result of an upsert call: the state afterwards, the value returned to the
caller (`Except.error` = an exception propagated out), and the documents that
were actually handed to a successful backend add. -/
structure UpsertOutcome where
  state : MgrState
  result : Except String (List PyVal)
  persisted : List Document

/-- `VectorStoreManager.upsert`.  Note: `get_active_store()` in both concrete
managers raises `RuntimeError` when no store is active, so the
`if self.get_active_store() is None` guard surfaces as an exception; a backend
failure in `delete`/`add_documents` is caught, logged, and turned into a
normal `[]` return; the fingerprint cache is never touched. -/
def upsert (st₀ : MgrState) (docs : List Document) (space_key : Option String) :
    UpsertOutcome :=
  if docs.isEmpty then ⟨st₀, .ok [], []⟩
  else
    let st := activate_opt st₀ space_key
    match st.active_store with
    | none => ⟨st, .error "store is not initialized", []⟩
    | some b =>
      let filtered := filter_docs_by_fingerprint st.cache docs
      if filtered.isEmpty then ⟨st, .ok [], []⟩
      else
        match collect_ids filtered with
        | none => ⟨st, .error "KeyError: id", []⟩
        | some ids =>
          match b.delete ids with
          | .error _ => ⟨st, .ok [], []⟩
          | .ok _ =>
            match b.add_documents filtered ids with
            | .error _ => ⟨st, .ok [], []⟩
            | .ok returned_ids => ⟨st, .ok returned_ids, filtered⟩

/-- `VectorStoreManager._get_fingerprint_by_source`: scan the store rows
(metadata dictionaries read back via `_select`) for the first row of the
given source and assemble its fingerprint columns (absent columns read back
as `None`). -/
def fingerprint_from_row (row : Dict) : Dict :=
  [(FP_SIZE, row.get FP_SIZE), (FP_MTIME, row.get FP_MTIME),
   (FP_SHA, row.get FP_SHA)]

def get_fingerprint_by_source (rows : List Dict) (source : PyVal) : Option Dict :=
  (rows.find? (fun r => r.get KEY_SOURCE = source)).map fingerprint_from_row

/-- `VectorStoreManager._regist_fingerprint_cache`: for each document with a
non-`None` source that is not yet a key of the cache, re-read the store
(`rows` is the store contents at registration time) and record the
authoritative fingerprint. -/
def regist_fingerprint_cache (rows : List Dict) :
    FpCache → List Document → FpCache
  | cache, [] => cache
  | cache, d :: ds =>
    let source := d.metadata.get KEY_SOURCE
    if source = vNone then regist_fingerprint_cache rows cache ds
    else if cache.contains source then regist_fingerprint_cache rows cache ds
    else
      regist_fingerprint_cache rows
        (cache.set source (get_fingerprint_by_source rows source)) ds

/-- `VectorStoreManager._load_fingerprint_cache`: on space load, register a
fingerprint for every store row whose source has no non-`None` entry yet. -/
def load_fingerprint_cache : FpCache → List Dict → FpCache
  | cache, [] => cache
  | cache, row :: rest =>
    let source := row.get KEY_SOURCE
    let cache₂ :=
      if (cache.get source).isNone then
        cache.set source (some (fingerprint_from_row row))
      else cache
    load_fingerprint_cache cache₂ rest

/-- `ChromaManager.upsert_multi`.  Unlike `upsert` it checks
`self._active_store is None` directly (returning `[]`), re-raises backend
failures as `RuntimeError("failed to upsert multimodal documents")`, and on
success extends the fingerprint cache via `_regist_fingerprint_cache` with
store rows re-read after the add (`rows_after`).  The temp-file cleanup in
its `finally` block is filesystem-only and does not affect the returned
value or the state modelled here. -/
def upsert_multi (st₀ : MgrState) (docs : List Document)
    (space_key : Option String) (rows_after : List Dict) : UpsertOutcome :=
  if docs.isEmpty then ⟨st₀, .ok [], []⟩
  else
    let st := activate_opt st₀ space_key
    match st.active_store with
    | none => ⟨st, .ok [], []⟩
    | some b =>
      let filtered := filter_docs_by_fingerprint st.cache docs
      if filtered.isEmpty then ⟨st, .ok [], []⟩
      else
        let uris := filtered.map (fun d => d.page_content)
        let metadatas := filtered.map (fun d => d.metadata)
        match collect_ids filtered with
        | none => ⟨st, .error "KeyError: id", []⟩
        | some ids =>
          match b.delete ids with
          | .error _ => ⟨st, .error "failed to upsert multimodal documents", []⟩
          | .ok _ =>
            match b.add_images uris metadatas ids with
            | .error _ =>
              ⟨st, .error "failed to upsert multimodal documents", []⟩
            | .ok _ =>
              if ids.isEmpty then ⟨st, .ok [], filtered⟩
              else
                ⟨{ st with
                    cache := regist_fingerprint_cache rows_after st.cache filtered },
                  .ok ids, filtered⟩

/-- Result of a query call: state, returned value (`Except.error` = raised),
and whether the backend similarity search was invoked. -/
structure QueryOutcome where
  state : MgrState
  result : Except String (List Document)
  search_invoked : Bool

/-- `VectorStoreManager.query`.  `get_active_store()` raises in both concrete
managers when no store is active, so the `is None` guard surfaces as an
exception; an empty query vector short-circuits to `[]`; a backend search
failure propagates (no try/except around it). -/
def query (st₀ : MgrState) (query_vec : List Int) (topk : Nat)
    (filter : Option Dict) (space_key : Option String) : QueryOutcome :=
  let st := activate_opt st₀ space_key
  match st.active_store with
  | none => ⟨st, .error "store is not initialized", false⟩
  | some b =>
    if query_vec.isEmpty then ⟨st, .ok [], false⟩
    else ⟨st, b.search query_vec topk filter, true⟩

/-- State for `load_store_by_space_key`, with collection handles abstracted
to numbers so that "the same handle" is decidable: `next_handle` is the
identity of the next client object the constructor would produce. -/
structure LoadState where
  active_space : String
  stores : List (String × Nat)
  active_store : Option Nat
  cache : FpCache
  next_handle : Nat

/-- `ChromaManager.load_store_by_space_key` (PgVector is identical in shape):
unconditionally construct a fresh client handle, make it active, overwrite
`self._stores[space_key]`, and sync the fingerprint cache from the store
rows of the collection (`_load_fingerprint_cache`).  Returns the new state
and the handle handed back to the caller. -/
def load_store_by_space_key (st : LoadState) (key : String)
    (rows : List Dict) : LoadState × Nat :=
  let h := st.next_handle
  (⟨key, assocSet st.stores key h, some h,
    load_fingerprint_cache st.cache rows, h + 1⟩, h)

/-! ## Space keys (`ragserver/embed/util.py`) -/

/-- Membership in the `allowed` character set `[a-zA-Z0-9._-]`. -/
def allowedChar (c : Char) : Bool :=
  (('a' ≤ c) && (c ≤ 'z')) || (('A' ≤ c) && (c ≤ 'Z')) ||
  (('0' ≤ c) && (c ≤ '9')) || (c == '.') || (c == '_') || (c == '-')

/-- The local `is_alnum` helper of `_sanitize_space_key`. -/
def isAlnumKey (c : Char) : Bool :=
  (('0' ≤ c) && (c ≤ '9')) || (('a' ≤ c) && (c ≤ 'z')) ||
  (('A' ≤ c) && (c ≤ 'Z'))

/-- `if not is_alnum(chars[0]): chars[0] = "0"`. -/
def fixHead : List Char → List Char
  | [] => []
  | c :: rest => (if isAlnumKey c then c else '0') :: rest

/-- `if not is_alnum(chars[-1]): chars[-1] = "0"` (applied after `fixHead`,
exactly as in the source). -/
def fixLast (l : List Char) : List Char :=
  (fixHead l.reverse).reverse

/-- `while len(chars) < 3: chars.append("0")`. -/
def pad3 (l : List Char) : List Char :=
  l ++ List.replicate (3 - l.length) '0'

/-- `_sanitize_space_key`. -/
def sanitize_space_key (s : String) : String :=
  if s = "" then "000"
  else
    let chars := s.data.map (fun ch => if allowedChar ch then ch else '_')
    let chars := if chars.length > 512 then chars.take 512 else chars
    let chars := if chars = [] then "000".data else fixLast (fixHead chars)
    String.mk (pad3 chars)

/-- `generate_space_key`. -/
def generate_space_key (embed_name model_name embed_type : String) : String :=
  sanitize_space_key (embed_name ++ "__" ++ model_name ++ "__" ++ embed_type)

/-! ## Loaders (`ragserver/ingest/file_loader.py`, `html_loader.py`)

The character-recursive splitter is an external collaborator; it is passed as
a function parameter.  `split_documents` copies the parent document's
metadata verbatim onto every produced chunk, so for the single-parent calls
(`self._split_text([base_doc])`) it is modelled as `split : String → List
String` with the parent metadata attached to each chunk.
`assert_required_keys` only validates metadata (raising on defaults) and
never modifies it, so it does not appear in the emitted documents. -/

/-- Python `str.strip()` whitespace test (ASCII whitespace, which is what
the loader and reranker contents contain). -/
def isPySpace (c : Char) : Bool :=
  (c == ' ') || (c == '\t') || (c == '\n') || (c == '\r') ||
  (c == Char.ofNat 11) || (c == Char.ofNat 12)

/-- Python `s.strip()`. -/
def pyStrip (s : String) : String :=
  String.mk (((s.data.dropWhile isPySpace).reverse.dropWhile
    isPySpace).reverse)

/-- `for i, d in enumerate(docs)` loops that build a result per element. -/
def mapWithIndex {α β : Type} (f : Nat → α → β) : Nat → List α → List β
  | _, [] => []
  | n, a :: as => f n a :: mapWithIndex f (n + 1) as

/-- `asdict(TextFileMetaData(...))` as built in `FileLoader._build_text_docs`. -/
def text_file_metadata (source space_key : String) (fp : Dict)
    (base_source : Option String) : Dict :=
  [(KEY_ID, vStr ""), (KEY_SOURCE, vStr source),
   (KEY_SPACE_KEY, vStr space_key), (KEY_EMBED_TYPE, vStr EMBTYPE_TEXT),
   (KEY_BASE_SOURCE, vStr (base_source.getD source)),
   (FP_SIZE, fp.get FP_SIZE), (FP_MTIME, fp.get FP_MTIME),
   (FP_SHA, fp.get FP_SHA), (KEY_CHUNK_NO, vInt (-1))]

/-- The per-chunk mutation in `_build_text_docs`: set `chunk_no`, then the
stable id of `"<embed_type>::<source>::<fp_sha256_head>::<chunk_no>"`, all
read back from the metadata being mutated. -/
def assign_text_chunk_id (uuid5 : String → String → String) (md₀ : Dict)
    (i : Nat) : Dict :=
  let md := md₀.set KEY_CHUNK_NO (vInt i)
  md.set KEY_ID (vStr (stable_id_from uuid5
    (pyStr (md.get KEY_EMBED_TYPE) ++ "::" ++ pyStr (md.get KEY_SOURCE) ++
     "::" ++ pyStr (md.get FP_SHA) ++ "::" ++ pyStr (md.get KEY_CHUNK_NO))))

/-- `FileLoader._build_text_docs` (used for `.txt` and `.md`). -/
def build_text_docs (split : String → List String)
    (uuid5 : String → String → String) (content source space_key : String)
    (fp : Dict) (base_source : Option String) : List Document :=
  let md := text_file_metadata source space_key fp base_source
  mapWithIndex (fun i chunk => ⟨chunk, assign_text_chunk_id uuid5 md i⟩) 0
    (split content)

/-- `asdict(PDFTextMetaData(...))` as built per page in `_load_pdf_text`. -/
def pdf_text_metadata (source space_key : String) (fp : Dict) (page_no : Nat)
    (base_source : Option String) : Dict :=
  [(KEY_ID, vStr ""), (KEY_SOURCE, vStr source),
   (KEY_SPACE_KEY, vStr space_key), (KEY_EMBED_TYPE, vStr EMBTYPE_TEXT),
   (KEY_BASE_SOURCE, vStr (base_source.getD source)),
   (FP_SIZE, fp.get FP_SIZE), (FP_MTIME, fp.get FP_MTIME),
   (FP_SHA, fp.get FP_SHA), (KEY_PAGE, vInt page_no),
   (KEY_CHUNK_NO, vInt (-1))]

/-- The per-chunk mutation in `_load_pdf_text`: set `chunk_no`, then the id of
`"<embed_type>::<source>::<fp_sha256_head>::<page>::<chunk_no>"`. -/
def assign_pdf_text_chunk_id (uuid5 : String → String → String) (md₀ : Dict)
    (i : Nat) : Dict :=
  let md := md₀.set KEY_CHUNK_NO (vInt i)
  md.set KEY_ID (vStr (stable_id_from uuid5
    (pyStr (md.get KEY_EMBED_TYPE) ++ "::" ++ pyStr (md.get KEY_SOURCE) ++
     "::" ++ pyStr (md.get FP_SHA) ++ "::" ++ pyStr (md.get KEY_PAGE) ++
     "::" ++ pyStr (md.get KEY_CHUNK_NO))))

/-- `FileLoader._load_pdf_text`.  `pages` is the text extracted per page
(`none` = the page failed to load and is skipped); pages whose stripped text
is empty are skipped; the remaining pages are chunked and id-stamped, and the
per-page document lists are appended in page order. -/
def load_pdf_text (split : String → List String)
    (uuid5 : String → String → String) (pages : List (Option String))
    (source space_key : String) (fp : Dict) (base_source : Option String) :
    List Document :=
  (mapWithIndex (fun page_no content? =>
      match content? with
      | none => []
      | some content =>
        if pyStrip content = "" then []
        else
          let md := pdf_text_metadata source space_key fp page_no base_source
          mapWithIndex (fun i chunk => ⟨chunk, assign_pdf_text_chunk_id uuid5 md i⟩)
            0 (split content)) 0 pages).flatten

/-- `asdict(PDFImageMetaData(...))` as built per page in `_load_pdf_image`. -/
def pdf_image_metadata (source space_key : String) (fp : Dict) (page_no : Nat)
    (base_source : Option String) : Dict :=
  [(KEY_ID, vStr ""), (KEY_SOURCE, vStr source),
   (KEY_SPACE_KEY, vStr space_key), (KEY_EMBED_TYPE, vStr EMBTYPE_IMAGE),
   (KEY_BASE_SOURCE, vStr (base_source.getD source)),
   (FP_SIZE, fp.get FP_SIZE), (FP_MTIME, fp.get FP_MTIME),
   (FP_SHA, fp.get FP_SHA), (KEY_PAGE, vInt page_no),
   (KEY_IMAGE_NO, vInt (-1))]

/-- The per-image mutation in `_load_pdf_image`: set `image_no`, then the id
of `"<embed_type>::<source>::<fp_sha256_head>::<page>::<image_no>"`. -/
def assign_pdf_image_id (uuid5 : String → String → String) (md₀ : Dict)
    (image_no : Nat) : Dict :=
  let md := md₀.set KEY_IMAGE_NO (vInt image_no)
  md.set KEY_ID (vStr (stable_id_from uuid5
    (pyStr (md.get KEY_EMBED_TYPE) ++ "::" ++ pyStr (md.get KEY_SOURCE) ++
     "::" ++ pyStr (md.get FP_SHA) ++ "::" ++ pyStr (md.get KEY_PAGE) ++
     "::" ++ pyStr (md.get KEY_IMAGE_NO))))

/-- `FileLoader._load_pdf_image`.  `pages` holds, per page, the temp-file
path produced for each embedded image (`none` = pixmap extraction failed and
the image is skipped); the payload of each emitted document is that path. -/
def load_pdf_image (uuid5 : String → String → String)
    (pages : List (List (Option String))) (source space_key : String)
    (fp : Dict) (base_source : Option String) : List Document :=
  (mapWithIndex (fun page_no imgs =>
      let md := pdf_image_metadata source space_key fp page_no base_source
      (mapWithIndex (fun image_no path? =>
          match path? with
          | none => []
          | some path => [Document.mk path (assign_pdf_image_id uuid5 md image_no)])
        0 imgs).flatten) 0 pages).flatten

/-- `asdict(WebTextMetaData(...))` (`own_meta` in `_load_html_text`); note it
carries no fingerprint fields. -/
def web_text_metadata (url space_key : String) (base_url : Option String) :
    Dict :=
  [(KEY_ID, vStr ""), (KEY_SOURCE, vStr url), (KEY_SPACE_KEY, vStr space_key),
   (KEY_EMBED_TYPE, vStr EMBTYPE_TEXT),
   (KEY_BASE_SOURCE, vStr (base_url.getD url)), (KEY_CHUNK_NO, vInt (-1))]

/-- Python `d.update(own)`. -/
def dictUpdate (d own : Dict) : Dict :=
  own.foldl (fun acc p => acc.set p.1 p.2) d

/-- `HTMLLoader._load_html_text`: split the fetched page documents, overlay
`own_meta`, number the chunks, and stamp the id of
`"<embed_type>::<source>::<chunk_no>"` (the key has no fingerprint
component).  `fetched` is what `WebBaseLoader(...).load()` returned and
`split` is `self._split_text` on that list. -/
def load_html_text (split : List Document → List Document)
    (uuid5 : String → String → String) (fetched : List Document)
    (url space_key : String) (base_url : Option String) : List Document :=
  mapWithIndex (fun i d =>
      let md := dictUpdate d.metadata (web_text_metadata url space_key base_url)
      let md := md.set KEY_CHUNK_NO (vInt i)
      let md := md.set KEY_ID (vStr (stable_id_from uuid5
        (pyStr (md.get KEY_EMBED_TYPE) ++ "::" ++ pyStr (md.get KEY_SOURCE) ++
         "::" ++ pyStr (md.get KEY_CHUNK_NO))))
      { d with metadata := md }) 0 (split fetched)

/-! ## The local HF reranker (`ragserver/rerank/hf_rerank_manager.py`)

The HTTP backend is an external collaborator: `response` is the decoded
`results` block, each item reduced to its `"index"` field (`none` = the item
has no usable integer index, which the source skips via
`except (KeyError, IndexError, TypeError)`); `response = none` models the
whole request raising, which `compress_documents` catches and answers with
`documents[:limit]`. -/

/-- Python list indexing `l[i]` with negative-index wrap-around; `none`
models `IndexError`. -/
def pyIndex {α : Type} (l : List α) (i : Int) : Option α :=
  if 0 ≤ i then l.get? i.toNat
  else if 0 ≤ i + l.length then l.get? (i + l.length).toNat
  else none

/-- `HFRerank._get_filtered_docs` from position `i`: the stripped non-empty
payloads and the map from filtered position back to the original index. -/
def get_filtered_docs : Nat → List Document → List String × List Nat
  | _, [] => ([], [])
  | i, d :: ds =>
    let rest := get_filtered_docs (i + 1) ds
    let content := pyStrip d.page_content
    if content = "" then rest else (content :: rest.1, i :: rest.2)

/-- The first loop of `HFRerank._get_selected_indices`: remap each result
index through `index_map` (Python indexing, so negative indices wrap),
skipping unusable items and duplicates, appending in response order. -/
def select_from_results (im : List Nat) :
    List (Option Int) → List Nat → List Nat
  | [], sel => sel
  | r :: rs, sel =>
    match r with
    | none => select_from_results im rs sel
    | some i =>
      match pyIndex im i with
      | none => select_from_results im rs sel
      | some m =>
        if m ∈ sel then select_from_results im rs sel
        else select_from_results im rs (sel ++ [m])

/-- The pad loop of `_get_selected_indices`: walk `range(len(docs))`, append
missing indices, and break as soon as the limit is reached (the break test
runs even when the index was already present, as in the source). -/
def fill_go (limit : Nat) : List Nat → List Nat → List Nat
  | sel, [] => sel
  | sel, idx :: rest =>
    let sel₂ := if idx ∈ sel then sel else sel ++ [idx]
    if limit ≤ sel₂.length then sel₂ else fill_go limit sel₂ rest

/-- `HFRerank._get_selected_indices`. -/
def get_selected_indices (results : List (Option Int)) (im : List Nat)
    (nDocs limit : Nat) : List Nat :=
  let sel := select_from_results im results []
  if sel = [] then []
  else if sel.length < limit then fill_go limit sel (List.range nDocs)
  else sel

/-- `HFRerank.compress_documents`.  `hf_topk` is the reranker's own
configured `topk` (an int; non-positive means "use the document count").
The final comprehension `[documents[idx] for idx in selected[:limit]]` is
rendered with `List.filterMap`/`get?`; every selected index is proven in
range below, so no `IndexError` path is lost. -/
def compress_documents (hf_topk : Int)
    (response : Option (List (Option Int))) (documents : List Document) :
    List Document :=
  if documents.isEmpty then []
  else
    let limit : Nat := if 0 < hf_topk then hf_topk.toNat else documents.length
    let fd := get_filtered_docs 0 documents
    if fd.1.isEmpty then documents.take limit
    else
      match response with
      | none => documents.take limit
      | some results =>
        let sel := get_selected_indices results fd.2 documents.length limit
        if sel.isEmpty then documents.take limit
        else (sel.take limit).filterMap (fun i => documents.get? i)

/-- `RerankManager.rerank` with the HF compressor: `list(compress_documents)`
(the only exceptions the wrapper can see are already absorbed inside
`compress_documents` in this model). -/
def rerank_docs (hf_topk : Int) (response : Option (List (Option Int)))
    (docs : List Document) : List Document :=
  compress_documents hf_topk response docs

/-! ## Retriever (`ragserver/retrieval/retriever.py`)

`store.load_store_by_space_key` / `embed.embed_query` are performed before
the fetch; the store fetch `store.query(query_vec, topk_scaled, space_key)`
is abstracted as `fetch : Nat → List Document` (the argument is the `topk`
requested from the store). -/

/-- `topk_scaled = topk * max(1, topk_rerank_scale)` (line 69 / 113). -/
def topk_scaled (topk scale : Nat) : Nat := topk * max 1 scale

/-- `_review_page_content` with `content=None`: overwrite each payload with
the document's `source` metadata value. -/
def review_page_content (docs : List Document) : List Document :=
  docs.map (fun d => { d with page_content := pyStr (d.metadata.get KEY_SOURCE) })

/-- `query_text` with a reranker (the embedded HF reranker): returns the
store-requested count and the final document list. -/
def query_text_rr (fetch : Nat → List Document) (hf_topk : Int)
    (response : Option (List (Option Int))) (topk scale : Nat) :
    Nat × List Document :=
  let requested := topk_scaled topk scale
  let docs := fetch requested
  if docs.isEmpty then (requested, [])
  else
    let scaled_len := docs.length
    (requested, (rerank_docs hf_topk response docs).take (min scaled_len topk))

/-- `query_text` without a reranker: `docs[: min(topk, len(docs))]`. -/
def query_text_no_rr (fetch : Nat → List Document) (topk scale : Nat) :
    Nat × List Document :=
  let requested := topk_scaled topk scale
  let docs := fetch requested
  if docs.isEmpty then (requested, [])
  else (requested, docs.take (min topk docs.length))

/-- `query_text_multi` with a reranker: identical shape, except the payloads
are rewritten by `_review_page_content` before reranking. -/
def query_text_multi_rr (fetch : Nat → List Document) (hf_topk : Int)
    (response : Option (List (Option Int))) (topk scale : Nat) :
    Nat × List Document :=
  let requested := topk_scaled topk scale
  let docs := fetch requested
  if docs.isEmpty then (requested, [])
  else
    let docs₂ := review_page_content docs
    let scaled_len := docs₂.length
    (requested, (rerank_docs hf_topk response docs₂).take (min scaled_len topk))

/-! ## Helper lemmas: association-list dictionaries -/

theorem FpCache.getItem_set_same (c : FpCache) (k : PyVal) (v : Option Dict) :
    (c.set k v).getItem k = some v := by
  induction c with
  | nil => simp [FpCache.set, FpCache.getItem]
  | cons p rest ih =>
    by_cases h : p.1 = k
    · simp [FpCache.set, h, FpCache.getItem]
    · simpa [FpCache.set, h, FpCache.getItem, List.find?] using ih

theorem FpCache.getItem_set_ne (c : FpCache) {k k₂ : PyVal} (h : k ≠ k₂)
    (v : Option Dict) : (c.set k v).getItem k₂ = c.getItem k₂ := by
  induction c with
  | nil => simp [FpCache.set, FpCache.getItem, List.find?, h]
  | cons p rest ih =>
    by_cases hp : p.1 = k
    · subst hp
      simp [FpCache.set, FpCache.getItem, List.find?, h]
    · rw [show FpCache.set (p :: rest) k v = p :: FpCache.set rest k v from by
        simp [FpCache.set, hp]]
      by_cases hp₂ : p.1 = k₂
      · simp [FpCache.getItem, List.find?, hp₂]
      · simpa [FpCache.getItem, List.find?, hp₂] using ih

theorem FpCache.contains_set_same (c : FpCache) (k : PyVal) (v : Option Dict) :
    (c.set k v).contains k = true := by
  induction c with
  | nil => simp [FpCache.set, FpCache.contains]
  | cons p rest ih =>
    by_cases h : p.1 = k
    · simp [FpCache.set, h, FpCache.contains]
    · simpa [FpCache.set, h, FpCache.contains] using ih

theorem FpCache.contains_set_ne (c : FpCache) {k k₂ : PyVal} (h : k ≠ k₂)
    (v : Option Dict) : (c.set k v).contains k₂ = c.contains k₂ := by
  induction c with
  | nil => simp [FpCache.set, FpCache.contains, h]
  | cons p rest ih =>
    by_cases hp : p.1 = k
    · subst hp
      simp [FpCache.set, FpCache.contains, h]
    · have ih₂ : (List.any (FpCache.set rest k v) fun p => decide (p.1 = k₂))
          = rest.any fun p => decide (p.1 = k₂) := by
        simpa [FpCache.contains] using ih
      simp [FpCache.set, hp, FpCache.contains, ih₂]

theorem FpCache.contains_iff_getItem_isSome (c : FpCache) (k : PyVal) :
    c.contains k = true ↔ (c.getItem k).isSome := by
  induction c with
  | nil => simp [FpCache.contains, FpCache.getItem]
  | cons p rest ih =>
    by_cases h : p.1 = k
    · simp [FpCache.contains, FpCache.getItem, List.find?, h]
    · simp [FpCache.contains, FpCache.getItem, List.find?, h]

theorem assocGet_set_same {α : Type} (l : List (String × α)) (k : String)
    (v : α) : assocGet (assocSet l k v) k = some v := by
  induction l with
  | nil => simp [assocSet, assocGet]
  | cons p rest ih =>
    by_cases h : p.1 = k
    · simp [assocSet, h, assocGet]
    · simpa [assocSet, h, assocGet, List.find?] using ih

theorem Dict.get_set_same (d : Dict) (k : String) (v : PyVal) :
    (d.set k v).get k = v := by
  induction d with
  | nil => simp [Dict.set, Dict.get]
  | cons p rest ih =>
    by_cases h : p.1 = k
    · simp [Dict.set, h, Dict.get]
    · simpa [Dict.set, h, Dict.get, List.find?] using ih

theorem Dict.get_set_ne (d : Dict) {k k₂ : String} (h : k ≠ k₂) (v : PyVal) :
    (d.set k v).get k₂ = d.get k₂ := by
  induction d with
  | nil => simp [Dict.set, Dict.get, List.find?, h]
  | cons p rest ih =>
    by_cases hp : p.1 = k
    · subst hp
      simp [Dict.set, Dict.get, List.find?, h]
    · rw [show Dict.set (p :: rest) k v = p :: Dict.set rest k v from by
        simp [Dict.set, hp]]
      by_cases hp₂ : p.1 = k₂
      · simp [Dict.get, List.find?, hp₂]
      · simpa [Dict.get, List.find?, hp₂] using ih

/-! ## Helper lemmas: indexed loops -/

theorem mapWithIndex_length {α β : Type} (f : Nat → α → β) (n : Nat)
    (l : List α) : (mapWithIndex f n l).length = l.length := by
  induction l generalizing n with
  | nil => rfl
  | cons a as ih => simp [mapWithIndex, ih]

theorem mem_mapWithIndex {α β : Type} {f : Nat → α → β} {n : Nat}
    {l : List α} {b : β} (hb : b ∈ mapWithIndex f n l) :
    ∃ i, ∃ h : i < l.length, b = f (n + i) (l.get ⟨i, h⟩) := by
  induction l generalizing n with
  | nil => simp [mapWithIndex] at hb
  | cons a as ih =>
    simp only [mapWithIndex, List.mem_cons] at hb
    rcases hb with hb | hb
    · exact ⟨0, by simp, by simpa using hb⟩
    · obtain ⟨i, hi, he⟩ := ih hb
      refine ⟨i + 1, by simpa [Nat.succ_lt_succ_iff] using hi, ?_⟩
      rw [show n + (i + 1) = (n + 1) + i by omega]
      simpa using he

/-! ## Helper lemmas: the fingerprint sentinel -/

theorem extract_missing_key_dummy (md : Dict)
    (h : md.get FP_SIZE = PyVal.vNone ∨ md.get FP_MTIME = PyVal.vNone ∨
      md.get FP_SHA = PyVal.vNone) :
    extract_fingerprint md = DUMMY_FINGERPRINT := by
  unfold extract_fingerprint FINGERPRINT_KEYS extract_fingerprint_go
  rcases h with h | h | h <;> simp [h, extract_fingerprint_go]

theorem equals_dummy_iff (stored : Dict) :
    fingerprint_equals stored DUMMY_FINGERPRINT = true ↔
      (stored.get FP_SIZE = PyVal.vInt (-1) ∧
       stored.get FP_MTIME = PyVal.vInt (-1) ∧
       stored.get FP_SHA = PyVal.vStr "") := by
  have h₁ : DUMMY_FINGERPRINT.get FP_SIZE = PyVal.vInt (-1) := rfl
  have h₂ : DUMMY_FINGERPRINT.get FP_MTIME = PyVal.vInt (-1) := rfl
  have h₃ : DUMMY_FINGERPRINT.get FP_SHA = PyVal.vStr "" := rfl
  unfold fingerprint_equals FINGERPRINT_KEYS
  simp [h₁, h₂, h₃]

/-! ## Concrete fixtures for witnesses and counterexamples -/

/-- A backend on which every operation succeeds (`add_documents` echoes the
requested ids, as the langchain stores do). -/
def okBackend : Backend where
  delete := fun _ => Except.ok ()
  add_documents := fun _ ids => Except.ok ids
  add_images := fun _ _ _ => Except.ok ()
  search := fun _ _ _ => Except.ok []

/-- A backend whose persistence operations all raise. -/
def failBackend : Backend where
  delete := fun _ => Except.error "db down"
  add_documents := fun _ _ => Except.error "db down"
  add_images := fun _ _ _ => Except.error "db down"
  search := fun _ _ _ => Except.error "db down"

def sampleFp : Dict :=
  [(FP_SIZE, PyVal.vInt 100), (FP_MTIME, PyVal.vInt 1700),
   (FP_SHA, PyVal.vStr "abc")]

def sampleDoc : Document :=
  ⟨"hello",
   [(KEY_ID, PyVal.vStr "id1"), (KEY_SOURCE, PyVal.vStr "s"),
    (FP_SIZE, PyVal.vInt 100), (FP_MTIME, PyVal.vInt 1700),
    (FP_SHA, PyVal.vStr "abc")]⟩

def okState : MgrState := ⟨"sp", [("sp", okBackend)], some okBackend, []⟩

def failState : MgrState := ⟨"sp", [("sp", failBackend)], some failBackend, []⟩

/-- A backend whose delete succeeds but whose add operations raise. -/
def mixedBackend : Backend where
  delete := fun _ => Except.ok ()
  add_documents := fun _ _ => Except.error "add down"
  add_images := fun _ _ _ => Except.error "add down"
  search := fun _ _ _ => Except.ok []

def mixedState : MgrState := ⟨"sp", [("sp", mixedBackend)], some mixedBackend, []⟩

def noStoreState : MgrState := ⟨"", [], none, []⟩

/-- An injective stand-in for `uuid.uuid5` used to evaluate id compositions
on concrete inputs. -/
def pairUuid5 (ns key : String) : String := ns ++ "|" ++ key

/-! ## C1 -/

/-- The keep/drop rule of `filterByFingerprint` exactly as the specification
states it (spec §4.D step 3), for comparison with the implementation:
`cache[source]` absent ⇒ keep; present but differing from the extracted
fingerprint ⇒ keep; present and equal ⇒ drop. -/
def spec_keep_rule (cache : FpCache) (doc : Document) : Bool :=
  match cache.getItem (doc.metadata.get KEY_SOURCE) with
  | none => true
  | some none => true
  | some (some cached) =>
    ¬ fingerprint_equals cached (extract_fingerprint doc.metadata)

theorem keep_doc_eq_spec_keep_rule (cache : FpCache) (d : Document)
    (h : d.metadata.get KEY_SOURCE ≠ PyVal.vNone) :
    keep_doc cache d = spec_keep_rule cache d := by
  unfold keep_doc spec_keep_rule
  rw [if_neg h]
  by_cases hc : cache.contains (d.metadata.get KEY_SOURCE) = true
  · rw [if_neg (by simp [hc])]
  · rw [if_pos (by simp [hc])]
    cases hgi : cache.getItem (d.metadata.get KEY_SOURCE) with
    | none => rfl
    | some o =>
      have hs : (cache.getItem (d.metadata.get KEY_SOURCE)).isSome := by
        rw [hgi]; rfl
      exact absurd ((FpCache.contains_iff_getItem_isSome _ _).mpr hs) hc

theorem collect_ids_isSome (docs : List Document)
    (h : ∀ d ∈ docs, (d.metadata.getItem KEY_ID).isSome) :
    ∃ ids, collect_ids docs = some ids := by
  induction docs with
  | nil => exact ⟨[], rfl⟩
  | cons d rest ih =>
    obtain ⟨v, hv⟩ := Option.isSome_iff_exists.mp (h d (by simp))
    obtain ⟨ids, hids⟩ := ih (fun x hx => h x (by simp [hx]))
    exact ⟨v :: ids, by simp [collect_ids, hv, hids]⟩

theorem collect_ids_length (docs : List Document) (ids : List PyVal)
    (h : collect_ids docs = some ids) : ids.length = docs.length := by
  induction docs generalizing ids with
  | nil => simp [collect_ids] at h; simp [← h]
  | cons d rest ih =>
    unfold collect_ids at h
    cases hgi : d.metadata.getItem KEY_ID with
    | none => rw [hgi] at h; simp at h
    | some v =>
      rw [hgi] at h
      cases hrest : collect_ids rest with
      | none => rw [hrest] at h; simp at h
      | some ids₂ =>
        rw [hrest] at h
        simp at h
        simp [← h, ih ids₂ hrest]

/-- C1: for every `upsert` / `upsert_multi` call, the fingerprint filter keeps
a document when its source is absent from the cache or when the cached
fingerprint differs from the one extracted from the document, and drops it
when they are equal (the implementation rule coincides with the spec rule for
every document that has a source); and on a healthy backend the documents
handed to the store add are exactly the kept ones, in input order
(`filter_docs_by_fingerprint` is a `List.filter`, hence order-preserving). -/
theorem upsert_persists_exactly_kept (st : MgrState) (docs : List Document)
    (sk : Option String) (b : Backend) (rows : List Dict)
    (hact : (activate_opt st sk).active_store = some b)
    (hdel : ∀ ids, b.delete ids = Except.ok ())
    (hadd : ∀ ds ids, ∃ r, b.add_documents ds ids = Except.ok r)
    (haddi : ∀ us ms ids, b.add_images us ms ids = Except.ok ())
    (hid : ∀ d ∈ docs, (d.metadata.getItem KEY_ID).isSome) :
    (∀ (cache : FpCache) (d : Document),
        d.metadata.get KEY_SOURCE ≠ PyVal.vNone →
        keep_doc cache d = spec_keep_rule cache d)
    ∧ (upsert st docs sk).persisted
        = filter_docs_by_fingerprint (activate_opt st sk).cache docs
    ∧ (upsert_multi st docs sk rows).persisted
        = filter_docs_by_fingerprint (activate_opt st sk).cache docs := by
  refine ⟨fun cache d hd => keep_doc_eq_spec_keep_rule cache d hd, ?_, ?_⟩
  · by_cases hde : docs.isEmpty
    · have : docs = [] := List.isEmpty_iff.mp hde
      subst this
      simp [upsert, filter_docs_by_fingerprint]
    · have hid₂ : ∀ d ∈ filter_docs_by_fingerprint (activate_opt st sk).cache docs,
          (d.metadata.getItem KEY_ID).isSome := by
        intro d hdmem
        exact hid d (List.mem_filter.mp hdmem).1
      obtain ⟨ids, hids⟩ := collect_ids_isSome _ hid₂
      obtain ⟨r, hr⟩ := hadd (filter_docs_by_fingerprint (activate_opt st sk).cache docs) ids
      by_cases hfe : (filter_docs_by_fingerprint (activate_opt st sk).cache docs).isEmpty
      · have hnil := List.isEmpty_iff.mp hfe
        simp [upsert, hde, hact, hnil]
      · simp [upsert, hde, hact, hfe, hids, hdel, hr]
  · by_cases hde : docs.isEmpty
    · have : docs = [] := List.isEmpty_iff.mp hde
      subst this
      simp [upsert_multi, filter_docs_by_fingerprint]
    · have hid₂ : ∀ d ∈ filter_docs_by_fingerprint (activate_opt st sk).cache docs,
          (d.metadata.getItem KEY_ID).isSome := by
        intro d hdmem
        exact hid d (List.mem_filter.mp hdmem).1
      obtain ⟨ids, hids⟩ := collect_ids_isSome _ hid₂
      by_cases hfe : (filter_docs_by_fingerprint (activate_opt st sk).cache docs).isEmpty
      · have hnil := List.isEmpty_iff.mp hfe
        simp [upsert_multi, hde, hact, hnil]
      · by_cases hie : ids.isEmpty
        · simp [upsert_multi, hde, hact, hfe, hids, hdel, haddi, hie]
        · simp [upsert_multi, hde, hact, hfe, hids, hdel, haddi, hie]

/-- C1 witness: the theorem applied to a healthy one-document store run. -/
theorem upsert_persists_exactly_kept_witness :
    (∀ (cache : FpCache) (d : Document),
        d.metadata.get KEY_SOURCE ≠ PyVal.vNone →
        keep_doc cache d = spec_keep_rule cache d)
    ∧ (upsert okState [sampleDoc] none).persisted
        = filter_docs_by_fingerprint (activate_opt okState none).cache [sampleDoc]
    ∧ (upsert_multi okState [sampleDoc] none []).persisted
        = filter_docs_by_fingerprint (activate_opt okState none).cache
            [sampleDoc] :=
  upsert_persists_exactly_kept okState [sampleDoc] none okBackend [] rfl
    (fun _ => rfl) (fun _ ids => ⟨ids, rfl⟩) (fun _ _ _ => rfl)
    (by intro d hd; simp only [List.mem_singleton] at hd; subst hd; rfl)

/-! ## C2 -/

theorem activate_opt_cache (st : MgrState) (sk : Option String) :
    (activate_opt st sk).cache = st.cache := by
  cases sk with
  | none => rfl
  | some k =>
    unfold activate_opt activate_space
    by_cases h : st.active_space = k
    · simp [h]
    · cases hg : assocGet st.stores k <;> simp [h, hg]

theorem regist_getItem_of_contains (rows : List Dict) (cache : FpCache)
    (ds : List Document) (s : PyVal) (h : cache.contains s = true) :
    (regist_fingerprint_cache rows cache ds).getItem s = cache.getItem s := by
  induction ds generalizing cache with
  | nil => rfl
  | cons d rest ih =>
    by_cases h₁ : d.metadata.get KEY_SOURCE = PyVal.vNone
    · simp only [regist_fingerprint_cache, if_pos h₁]
      exact ih cache h
    · by_cases h₂ : cache.contains (d.metadata.get KEY_SOURCE) = true
      · simp only [regist_fingerprint_cache, if_neg h₁, if_pos h₂]
        exact ih cache h
      · have hns : d.metadata.get KEY_SOURCE ≠ s := fun e => h₂ (e ▸ h)
        have hc₂ : (cache.set (d.metadata.get KEY_SOURCE)
            (get_fingerprint_by_source rows (d.metadata.get KEY_SOURCE))).contains
              s = true := by
          rw [FpCache.contains_set_ne _ hns]; exact h
        simp only [regist_fingerprint_cache, if_neg h₁, if_neg h₂]
        rw [ih _ hc₂, FpCache.getItem_set_ne _ hns]

theorem regist_getItem_of_new (rows : List Dict) (cache : FpCache)
    (ds : List Document) (s : PyVal) (hs : s ≠ PyVal.vNone)
    (hnc : cache.contains s = false)
    (hmem : ∃ d ∈ ds, d.metadata.get KEY_SOURCE = s) :
    (regist_fingerprint_cache rows cache ds).getItem s
      = some (get_fingerprint_by_source rows s) := by
  induction ds generalizing cache with
  | nil =>
    rcases hmem with ⟨d, hd, _⟩
    simp at hd
  | cons d rest ih =>
    by_cases hds : d.metadata.get KEY_SOURCE = s
    · have h₁ : ¬ d.metadata.get KEY_SOURCE = PyVal.vNone := by
        rw [hds]; exact hs
      have h₂ : ¬ cache.contains (d.metadata.get KEY_SOURCE) = true := by
        rw [hds, hnc]; simp
      simp only [regist_fingerprint_cache, if_neg h₁, if_neg h₂]
      rw [hds]
      rw [regist_getItem_of_contains rows _ rest s
        (FpCache.contains_set_same cache s _)]
      rw [FpCache.getItem_set_same]
    · have hmem₂ : ∃ x ∈ rest, x.metadata.get KEY_SOURCE = s := by
        rcases hmem with ⟨x, hx, hxs⟩
        rcases List.mem_cons.mp hx with hx | hx
        · exact absurd (hx ▸ hxs) hds
        · exact ⟨x, hx, hxs⟩
      by_cases h₁ : d.metadata.get KEY_SOURCE = PyVal.vNone
      · simp only [regist_fingerprint_cache, if_pos h₁]
        exact ih cache hnc hmem₂
      · by_cases h₂ : cache.contains (d.metadata.get KEY_SOURCE) = true
        · simp only [regist_fingerprint_cache, if_neg h₁, if_pos h₂]
          exact ih cache hnc hmem₂
        · simp only [regist_fingerprint_cache, if_neg h₁, if_neg h₂]
          refine ih _ ?_ hmem₂
          rw [FpCache.contains_set_ne _ hds]
          exact hnc

theorem upsert_cache_unchanged (st : MgrState) (docs : List Document)
    (sk : Option String) : (upsert st docs sk).state.cache = st.cache := by
  have hc := activate_opt_cache st sk
  unfold upsert
  dsimp only
  split
  · rfl
  · split
    · exact hc
    · split
      · exact hc
      · split
        · exact hc
        · split
          · exact hc
          · split
            · exact hc
            · exact hc

/-- Every `upsert_multi` run either persists nothing and leaves the cache
alone, or persists exactly the filtered documents and replaces the cache by
`_regist_fingerprint_cache` over them. -/
theorem upsert_multi_cache_cases (st : MgrState) (docs : List Document)
    (sk : Option String) (rows : List Dict) :
    ((upsert_multi st docs sk rows).persisted = []
      ∧ (upsert_multi st docs sk rows).state.cache
          = (activate_opt st sk).cache)
    ∨ ((upsert_multi st docs sk rows).persisted
        = filter_docs_by_fingerprint (activate_opt st sk).cache docs
      ∧ (upsert_multi st docs sk rows).state.cache
        = regist_fingerprint_cache rows (activate_opt st sk).cache
            (filter_docs_by_fingerprint (activate_opt st sk).cache docs)) := by
  have hc := activate_opt_cache st sk
  unfold upsert_multi
  dsimp only
  split
  · exact Or.inl ⟨rfl, hc.symm⟩
  · split
    · exact Or.inl ⟨rfl, rfl⟩
    · split
      · exact Or.inl ⟨rfl, rfl⟩
      · split
        · exact Or.inl ⟨rfl, rfl⟩
        · split
          · exact Or.inl ⟨rfl, rfl⟩
          · split
            · exact Or.inl ⟨rfl, rfl⟩
            · split
              · exfalso
                rename_i hde xa b hact hfe xc ids hci xd u hdl xe v hai hie
                have hids : ids = [] := List.isEmpty_iff.mp hie
                have hlen := collect_ids_length _ _ hci
                rw [hids] at hlen
                simp only [List.length_nil] at hlen
                exact hfe (List.isEmpty_iff.mpr
                  (List.length_eq_zero.mp hlen.symm))
              · exact Or.inr ⟨rfl, rfl⟩

/-- C2 (amended): `upsert` never touches the fingerprint cache (its success
path contains no registration step); only `upsert_multi`, on a successful
persist, extends the cache — and only for persisted sources not already
present, whose value is re-read from the store rows (`rows`), while sources
already present keep their old entry (so a changed fingerprint is not
refreshed there either). -/
theorem fingerprint_cache_extension (st : MgrState) (docs : List Document)
    (sk : Option String) (rows : List Dict) :
    (upsert st docs sk).state.cache = st.cache
    ∧ (∀ s, st.cache.contains s = true →
        (upsert_multi st docs sk rows).state.cache.getItem s
          = st.cache.getItem s)
    ∧ (∀ s, s ≠ PyVal.vNone → st.cache.contains s = false →
        (∃ d ∈ (upsert_multi st docs sk rows).persisted,
            d.metadata.get KEY_SOURCE = s) →
        (upsert_multi st docs sk rows).state.cache.getItem s
          = some (get_fingerprint_by_source rows s)) := by
  have hc := activate_opt_cache st sk
  refine ⟨upsert_cache_unchanged st docs sk, ?_, ?_⟩
  · intro s hs
    rcases upsert_multi_cache_cases st docs sk rows with ⟨_, h⟩ | ⟨_, h⟩
    · rw [h, hc]
    · rw [h, hc]
      exact regist_getItem_of_contains _ _ _ _ hs
  · intro s hs hnc hmem
    rcases upsert_multi_cache_cases st docs sk rows with ⟨hp, _⟩ | ⟨hp, h⟩
    · rw [hp] at hmem
      rcases hmem with ⟨d, hd, _⟩
      simp at hd
    · rw [h, hc]
      rw [hp, hc] at hmem
      exact regist_getItem_of_new _ _ _ _ hs hnc hmem

/-- A store row for source `"s"` as read back after a successful add. -/
def sampleRow : Dict :=
  [(KEY_SOURCE, PyVal.vStr "s"), (FP_SIZE, PyVal.vInt 100),
   (FP_MTIME, PyVal.vInt 1700), (FP_SHA, PyVal.vStr "abc")]

/-- C2 witness: after a successful `upsert_multi` of a new source, its cache
entry is the fingerprint re-read from the store rows. -/
theorem fingerprint_cache_extension_witness :
    (upsert_multi okState [sampleDoc] none [sampleRow]).state.cache.getItem
        (PyVal.vStr "s")
      = some (get_fingerprint_by_source [sampleRow] (PyVal.vStr "s")) :=
  (fingerprint_cache_extension okState [sampleDoc] none [sampleRow]).2.2
    (PyVal.vStr "s") (by decide) rfl
    ⟨sampleDoc, List.mem_singleton.mpr rfl, rfl⟩

/-- C2 counterexample: a successful `upsert` persists a document of a new
source `"s"` yet the fingerprint cache afterwards has no entry for `"s"`, and
a subsequent `skip_update` (with `check_update=false`) still answers `false`
— the claim that every successful `upsert` call extends the cache fails. -/
theorem upsert_does_not_extend_cache :
    (upsert okState [sampleDoc] none).result = Except.ok [PyVal.vStr "id1"]
    ∧ (upsert okState [sampleDoc] none).persisted = [sampleDoc]
    ∧ (upsert okState [sampleDoc] none).state.cache.contains (PyVal.vStr "s")
        = false
    ∧ skip_update false (upsert okState [sampleDoc] none).state.cache
        (PyVal.vStr "s") = false :=
  ⟨rfl, rfl, rfl, rfl⟩

/-! ## C3 -/

/-- C3 counterexample: the claim says `_fingerprint_equals` never returns
true when the current (extracted) fingerprint is the sentinel triple, but on
a stored sentinel it does; moreover the sentinel is exactly what
`_extract_fingerprint` yields for a URL-style metadata with no fingerprint
keys, so a cached sentinel drops the document. -/
theorem sentinel_compares_equal_to_cached_sentinel :
    fingerprint_equals DUMMY_FINGERPRINT DUMMY_FINGERPRINT = true
    ∧ extract_fingerprint [(KEY_SOURCE, PyVal.vStr "http://u")]
        = DUMMY_FINGERPRINT
    ∧ keep_doc [(PyVal.vStr "http://u", some DUMMY_FINGERPRINT)]
        ⟨"c", [(KEY_SOURCE, PyVal.vStr "http://u")]⟩ = false := by
  refine ⟨by decide, by decide, by decide⟩

/-- C3 (amended): URL-style documents (metadata lacking any fingerprint key)
extract to the reserved sentinel triple `(-1, -1, "")`, and comparison of a
stored fingerprint against the sentinel yields true exactly when the stored
fingerprint itself carries the sentinel values on all three keys — hence the
sentinel compares unequal to every real (non-sentinel) stored fingerprint,
but equal to a cached sentinel. -/
theorem sentinel_fingerprint_amended :
    (∀ md : Dict,
        (md.get FP_SIZE = PyVal.vNone ∨ md.get FP_MTIME = PyVal.vNone ∨
          md.get FP_SHA = PyVal.vNone) →
        extract_fingerprint md = DUMMY_FINGERPRINT)
    ∧ (∀ stored : Dict,
        fingerprint_equals stored DUMMY_FINGERPRINT = true ↔
          (stored.get FP_SIZE = PyVal.vInt (-1) ∧
           stored.get FP_MTIME = PyVal.vInt (-1) ∧
           stored.get FP_SHA = PyVal.vStr "")) :=
  ⟨extract_missing_key_dummy, equals_dummy_iff⟩

/-- C3 witness: the amended theorem evaluated on a URL metadata and on a real
stored fingerprint. -/
theorem sentinel_fingerprint_amended_witness :
    extract_fingerprint [(KEY_SOURCE, PyVal.vStr "http://u")] = DUMMY_FINGERPRINT
    ∧ fingerprint_equals sampleFp DUMMY_FINGERPRINT = false :=
  ⟨sentinel_fingerprint_amended.1 _ (Or.inl rfl),
   by
    have h := (sentinel_fingerprint_amended.2 sampleFp).not
    simp only [Bool.not_eq_true] at h
    exact h.mpr (by decide)⟩

/-! ## C4 -/

/-- C4 counterexample: a web-text document's id key is
`"<embed_type>::<source>::<chunk_no>"` with no fingerprint component at all —
instantiating the abstract `uuid5` with an injective pairing shows the id
differs from the claimed format (which would insert the sentinel sha `""`
between source and chunk number). -/
theorem web_text_id_lacks_fingerprint :
    (load_html_text (fun l => l) pairUuid5 [⟨"c", []⟩] "u" "sk" none).map
        (fun d => d.metadata.get KEY_ID)
      = [PyVal.vStr (stable_id_from pairUuid5
          ("text" ++ "::" ++ "u" ++ "::" ++ "0"))]
    ∧ stable_id_from pairUuid5 ("text" ++ "::" ++ "u" ++ "::" ++ "0")
      ≠ stable_id_from pairUuid5
          ("text" ++ "::" ++ "u" ++ "::" ++ "" ++ "::" ++ "0") :=
  ⟨by decide, by decide⟩

/-- C4 (amended): text-file (and markdown) documents carry the id
`uuid5(ns, "<embed_type>::<source>::<fp_sha256_head>::<chunk_no>")`, PDF text
documents add `::<page>` before the chunk number, PDF image documents use
`::<page>::<image_no>`, all as the claim states; web-text documents however
use the shorter key `"<embed_type>::<source>::<chunk_no>"` with no
fingerprint component.  Determinism is inherited from the purely functional
key construction: the id is a function of the metadata fields alone. -/
theorem stable_id_key_formats (uuid5 : String → String → String)
    (split : String → List String) (splitD : List Document → List Document) :
    (∀ (content source space_key : String) (fp : Dict) (bs : Option String),
      ∀ d ∈ build_text_docs split uuid5 content source space_key fp bs,
      ∃ i : Nat,
        d.metadata.get KEY_ID = PyVal.vStr (stable_id_from uuid5
          (EMBTYPE_TEXT ++ "::" ++ source ++ "::" ++ pyStr (fp.get FP_SHA)
            ++ "::" ++ toString i))
        ∧ d.metadata.get KEY_CHUNK_NO = PyVal.vInt i)
    ∧ (∀ (pages : List (Option String)) (source space_key : String)
        (fp : Dict) (bs : Option String),
      ∀ d ∈ load_pdf_text split uuid5 pages source space_key fp bs,
      ∃ page i : Nat,
        d.metadata.get KEY_ID = PyVal.vStr (stable_id_from uuid5
          (EMBTYPE_TEXT ++ "::" ++ source ++ "::" ++ pyStr (fp.get FP_SHA)
            ++ "::" ++ toString page ++ "::" ++ toString i)))
    ∧ (∀ (pages : List (List (Option String))) (source space_key : String)
        (fp : Dict) (bs : Option String),
      ∀ d ∈ load_pdf_image uuid5 pages source space_key fp bs,
      ∃ page im : Nat,
        d.metadata.get KEY_ID = PyVal.vStr (stable_id_from uuid5
          (EMBTYPE_IMAGE ++ "::" ++ source ++ "::" ++ pyStr (fp.get FP_SHA)
            ++ "::" ++ toString page ++ "::" ++ toString im)))
    ∧ (∀ (fetched : List Document) (url space_key : String)
        (bu : Option String),
      ∀ d ∈ load_html_text splitD uuid5 fetched url space_key bu,
      ∃ i : Nat,
        d.metadata.get KEY_ID = PyVal.vStr (stable_id_from uuid5
          (EMBTYPE_TEXT ++ "::" ++ url ++ "::" ++ toString i))) := by
  refine ⟨?_, ?_, ?_, ?_⟩
  · intro content source space_key fp bs d hd
    obtain ⟨i, hi, he⟩ := mem_mapWithIndex hd
    subst he
    exact ⟨0 + i, rfl, rfl⟩
  · intro pages source space_key fp bs d hd
    obtain ⟨sub, hsub, hdsub⟩ := List.mem_flatten.mp hd
    obtain ⟨page, hp, he⟩ := mem_mapWithIndex hsub
    subst he
    cases hc : pages.get ⟨page, hp⟩ with
    | none => rw [hc] at hdsub; simp at hdsub
    | some content =>
      rw [hc] at hdsub
      dsimp only at hdsub
      by_cases ht : pyStrip content = ""
      · rw [if_pos ht] at hdsub; simp at hdsub
      · rw [if_neg ht] at hdsub
        obtain ⟨i, hi₂, he₂⟩ := mem_mapWithIndex hdsub
        subst he₂
        exact ⟨0 + page, 0 + i, rfl⟩
  · intro pages source space_key fp bs d hd
    obtain ⟨sub, hsub, hdsub⟩ := List.mem_flatten.mp hd
    obtain ⟨page, hp, he⟩ := mem_mapWithIndex hsub
    subst he
    obtain ⟨sub₂, hsub₂, hdsub₂⟩ := List.mem_flatten.mp hdsub
    obtain ⟨im, him, he₂⟩ := mem_mapWithIndex hsub₂
    subst he₂
    cases hc : (pages.get ⟨page, hp⟩).get ⟨im, him⟩ with
    | none => rw [hc] at hdsub₂; simp at hdsub₂
    | some path =>
      rw [hc] at hdsub₂
      dsimp only at hdsub₂
      rcases List.mem_singleton.mp hdsub₂ with he₃
      subst he₃
      exact ⟨0 + page, 0 + im, rfl⟩
  · intro fetched url space_key bu d hd
    obtain ⟨i, hi, he⟩ := mem_mapWithIndex hd
    subst he
    refine ⟨0 + i, ?_⟩
    rw [show (0 : Nat) + i = i by omega]
    show ((dictUpdate ((splitD fetched).get ⟨i, hi⟩).metadata
        (web_text_metadata url space_key bu)).set KEY_CHUNK_NO
          (PyVal.vInt i) |>.set KEY_ID (PyVal.vStr (stable_id_from uuid5
            (pyStr (((dictUpdate ((splitD fetched).get ⟨i, hi⟩).metadata
              (web_text_metadata url space_key bu)).set KEY_CHUNK_NO
                (PyVal.vInt i)).get KEY_EMBED_TYPE) ++ "::" ++
             pyStr (((dictUpdate ((splitD fetched).get ⟨i, hi⟩).metadata
              (web_text_metadata url space_key bu)).set KEY_CHUNK_NO
                (PyVal.vInt i)).get KEY_SOURCE) ++ "::" ++
             pyStr (((dictUpdate ((splitD fetched).get ⟨i, hi⟩).metadata
              (web_text_metadata url space_key bu)).set KEY_CHUNK_NO
                (PyVal.vInt i)).get KEY_CHUNK_NO))))).get KEY_ID
      = PyVal.vStr (stable_id_from uuid5
          (EMBTYPE_TEXT ++ "::" ++ url ++ "::" ++ toString i))
    rw [Dict.get_set_same]
    have hbase : dictUpdate ((splitD fetched).get ⟨i, hi⟩).metadata
        (web_text_metadata url space_key bu)
      = (((((((splitD fetched).get ⟨i, hi⟩).metadata.set KEY_ID
          (PyVal.vStr "")).set KEY_SOURCE (PyVal.vStr url)).set KEY_SPACE_KEY
          (PyVal.vStr space_key)).set KEY_EMBED_TYPE
          (PyVal.vStr EMBTYPE_TEXT)).set KEY_BASE_SOURCE
          (PyVal.vStr (bu.getD url))).set KEY_CHUNK_NO (PyVal.vInt (-1)) := rfl
    have hET : ((dictUpdate ((splitD fetched).get ⟨i, hi⟩).metadata
        (web_text_metadata url space_key bu)).set KEY_CHUNK_NO
          (PyVal.vInt i)).get KEY_EMBED_TYPE = PyVal.vStr EMBTYPE_TEXT := by
      rw [Dict.get_set_ne _ (by decide), hbase,
        Dict.get_set_ne _ (by decide), Dict.get_set_ne _ (by decide),
        Dict.get_set_same]
    have hSRC : ((dictUpdate ((splitD fetched).get ⟨i, hi⟩).metadata
        (web_text_metadata url space_key bu)).set KEY_CHUNK_NO
          (PyVal.vInt i)).get KEY_SOURCE = PyVal.vStr url := by
      rw [Dict.get_set_ne _ (by decide), hbase,
        Dict.get_set_ne _ (by decide), Dict.get_set_ne _ (by decide),
        Dict.get_set_ne _ (by decide), Dict.get_set_ne _ (by decide),
        Dict.get_set_same]
    have hCH : ((dictUpdate ((splitD fetched).get ⟨i, hi⟩).metadata
        (web_text_metadata url space_key bu)).set KEY_CHUNK_NO
          (PyVal.vInt i)).get KEY_CHUNK_NO = PyVal.vInt i :=
      Dict.get_set_same _ _ _
    rw [hET, hSRC, hCH]
    rfl

/-- The single chunk document produced by the text-file loader for a
one-chunk split of content `"c"`. -/
def sampleChunkDoc : Document :=
  ⟨"c", assign_text_chunk_id pairUuid5
    (text_file_metadata "/a.txt" "sk" sampleFp none) 0⟩

/-- C4 witness: the amended theorem evaluated on a concrete text file. -/
theorem stable_id_key_formats_witness :
    ∃ i : Nat,
      sampleChunkDoc.metadata.get KEY_ID = PyVal.vStr (stable_id_from pairUuid5
        (EMBTYPE_TEXT ++ "::" ++ "/a.txt" ++ "::" ++
          pyStr (sampleFp.get FP_SHA) ++ "::" ++ toString i))
      ∧ sampleChunkDoc.metadata.get KEY_CHUNK_NO = PyVal.vInt i :=
  (stable_id_key_formats pairUuid5 (fun c => [c]) (fun l => l)).1 "c" "/a.txt"
    "sk" sampleFp none sampleChunkDoc (by decide)

/-! ## C5 -/

/-- C5 counterexample: starting from a fresh manager, a first
`load_store_by_space_key "k"` hands out handle `0`; the second call for the
same key hands out the new handle `1` (a newly constructed client), and the
stores map now holds `1`, not the original handle — the claim that a repeated
call returns the cached handle and that the map keeps the original is false. -/
theorem load_store_second_call_new_handle :
    (load_store_by_space_key (⟨"", [], none, [], 0⟩ : LoadState) "k" []).2 = 0
    ∧ (load_store_by_space_key
        (load_store_by_space_key (⟨"", [], none, [], 0⟩ : LoadState) "k" []).1
        "k" []).2 = 1
    ∧ (1 : Nat) ≠ 0
    ∧ assocGet (load_store_by_space_key
        (load_store_by_space_key (⟨"", [], none, [], 0⟩ : LoadState) "k" []).1
        "k" []).1.stores "k" = some 1 :=
  ⟨rfl, rfl, by decide, rfl⟩

/-- C5 (amended): every `load_store_by_space_key` call constructs a fresh
store client (handles strictly increase), overwrites the stores-map entry for
the key with the new handle, and makes the new handle active; a second call
with the same key therefore returns a different handle than the first. -/
theorem load_store_always_constructs_fresh (st : LoadState) (key : String)
    (rows rows₂ : List Dict) :
    (load_store_by_space_key st key rows).2 = st.next_handle
    ∧ (load_store_by_space_key (load_store_by_space_key st key rows).1 key
        rows₂).2 = st.next_handle + 1
    ∧ (load_store_by_space_key st key rows).2
        ≠ (load_store_by_space_key (load_store_by_space_key st key rows).1 key
            rows₂).2
    ∧ assocGet (load_store_by_space_key (load_store_by_space_key st key rows).1
        key rows₂).1.stores key = some (st.next_handle + 1)
    ∧ (load_store_by_space_key st key rows).1.active_store
        = some st.next_handle :=
  ⟨rfl, rfl, by show ¬ st.next_handle = st.next_handle + 1; omega,
   assocGet_set_same _ _ _, rfl⟩

/-! ## C6 -/

/-- C6 (amended): on a backend persistence failure, `query` and
`upsert_multi` raise to their caller (`query` has no try/except around the
similarity search; `upsert_multi` re-raises as `RuntimeError`), but `upsert`
catches the failure, logs it, and returns a normal empty id list instead of
raising. -/
theorem store_failure_handling (st : MgrState) (b : Backend)
    (sk : Option String)
    (hact : (activate_opt st sk).active_store = some b) :
    (∀ (vec : List Int) (topk : Nat) (filter : Option Dict) (e : String),
        vec ≠ [] → b.search vec topk filter = Except.error e →
        (query st vec topk filter sk).result = Except.error e)
    ∧ (∀ (docs : List Document) (rows : List Dict) (ids : List PyVal)
        (e : String),
        docs ≠ [] →
        filter_docs_by_fingerprint (activate_opt st sk).cache docs ≠ [] →
        collect_ids (filter_docs_by_fingerprint (activate_opt st sk).cache
          docs) = some ids →
        b.delete ids = Except.error e →
        (upsert_multi st docs sk rows).result
            = Except.error "failed to upsert multimodal documents"
          ∧ (upsert st docs sk).result = Except.ok [])
    ∧ (∀ (docs : List Document) (rows : List Dict) (ids : List PyVal)
        (e₁ e₂ : String),
        docs ≠ [] →
        filter_docs_by_fingerprint (activate_opt st sk).cache docs ≠ [] →
        collect_ids (filter_docs_by_fingerprint (activate_opt st sk).cache
          docs) = some ids →
        b.delete ids = Except.ok () →
        b.add_documents (filter_docs_by_fingerprint (activate_opt st sk).cache
          docs) ids = Except.error e₁ →
        b.add_images
          ((filter_docs_by_fingerprint (activate_opt st sk).cache docs).map
            (fun d => d.page_content))
          ((filter_docs_by_fingerprint (activate_opt st sk).cache docs).map
            (fun d => d.metadata)) ids = Except.error e₂ →
        (upsert_multi st docs sk rows).result
            = Except.error "failed to upsert multimodal documents"
          ∧ (upsert st docs sk).result = Except.ok []) := by
  refine ⟨?_, ?_, ?_⟩
  · intro vec topk filter e hne hs
    have hv : vec.isEmpty = false := by
      simpa [List.isEmpty_iff] using hne
    simp [query, hact, hv, hs]
  · intro docs rows ids e hde hfe hci hdl
    have hde₂ : docs.isEmpty = false := by
      simpa [List.isEmpty_iff] using hde
    have hfe₂ : (filter_docs_by_fingerprint (activate_opt st sk).cache
        docs).isEmpty = false := by
      simpa [List.isEmpty_iff] using hfe
    constructor
    · simp [upsert_multi, hde₂, hact, hfe₂, hci, hdl]
    · simp [upsert, hde₂, hact, hfe₂, hci, hdl]
  · intro docs rows ids e₁ e₂ hde hfe hci hdl had hai
    have hde₂ : docs.isEmpty = false := by
      simpa [List.isEmpty_iff] using hde
    have hfe₂ : (filter_docs_by_fingerprint (activate_opt st sk).cache
        docs).isEmpty = false := by
      simpa [List.isEmpty_iff] using hfe
    constructor
    · simp [upsert_multi, hde₂, hact, hfe₂, hci, hdl, hai]
    · simp [upsert, hde₂, hact, hfe₂, hci, hdl, had]

/-- C6 witness: the theorem applied to a backend whose operations all fail
(for the search and delete-failure parts) and to one whose delete succeeds
but whose adds fail (for the add-failure part). -/
theorem store_failure_handling_witness :
    (query failState [1] 10 none none).result = Except.error "db down"
    ∧ ((upsert_multi failState [sampleDoc] none []).result
          = Except.error "failed to upsert multimodal documents"
        ∧ (upsert failState [sampleDoc] none).result = Except.ok [])
    ∧ ((upsert_multi mixedState [sampleDoc] none []).result
          = Except.error "failed to upsert multimodal documents"
        ∧ (upsert mixedState [sampleDoc] none).result = Except.ok []) :=
  ⟨(store_failure_handling failState failBackend none rfl).1 [1] 10 none
      "db down" (by simp) rfl,
   (store_failure_handling failState failBackend none rfl).2.1 [sampleDoc] []
      [PyVal.vStr "id1"] "db down" (by simp) (by decide) rfl rfl,
   (store_failure_handling mixedState mixedBackend none rfl).2.2 [sampleDoc]
      [] [PyVal.vStr "id1"] "add down" "add down" (by simp) (by decide)
      rfl rfl rfl rfl⟩

/-- C6 counterexample: with a failing backend, `upsert` returns the normal
empty result `Except.ok []` — it does not raise, contradicting the claim that
every failing persistence operation surfaces as an error from the store. -/
theorem upsert_swallows_backend_failure :
    (upsert failState [sampleDoc] none).result = Except.ok []
    ∧ (upsert failState [sampleDoc] none).persisted = [] :=
  ⟨rfl, rfl⟩

/-! ## C7 -/

/-- C7 counterexample: two different (provider, model, embed_type) triples
with the same generated space key — the `"__"` separator is not escaped, so
`("a__b", "c", "t")` and `("a", "b__c", "t")` both map to `"a__b__c__t"`. -/
theorem space_key_collision :
    (("a__b" : String), ("c" : String), ("t" : String))
        ≠ (("a" : String), ("b__c" : String), ("t" : String))
    ∧ generate_space_key "a__b" "c" "t" = generate_space_key "a" "b__c" "t" :=
  ⟨by decide, by decide⟩

theorem map_allowed_id (l : List Char) (h : ∀ ch ∈ l, allowedChar ch = true) :
    l.map (fun ch => if allowedChar ch then ch else '_') = l := by
  induction l with
  | nil => rfl
  | cons x xs ih =>
    simp [h x (by simp), ih (fun ch hc => h ch (by simp [hc]))]

theorem fixHead_of_alnum (x : Char) (rest : List Char)
    (h : isAlnumKey x = true) : fixHead (x :: rest) = x :: rest := by
  simp [fixHead, h]

theorem fixLast_of_alnum (xs : List Char) (y : Char)
    (h : isAlnumKey y = true) : fixLast (xs ++ [y]) = xs ++ [y] := by
  unfold fixLast
  rw [List.reverse_append]
  simp only [List.reverse_cons, List.reverse_nil, List.nil_append,
    List.singleton_append]
  rw [fixHead_of_alnum _ _ h]
  simp

theorem pad3_of_ge (l : List Char) (h : 3 ≤ l.length) : pad3 l = l := by
  unfold pad3
  rw [show 3 - l.length = 0 by omega]
  simp

/-- `_sanitize_space_key` is the identity on nonempty strings of allowed
characters, of length between 3 and 512, with alphanumeric first and last
characters. -/
theorem sanitize_eq_self (x : Char) (mid : List Char) (y : Char)
    (hall : ∀ ch ∈ x :: (mid ++ [y]), allowedChar ch = true)
    (hx : isAlnumKey x = true) (hy : isAlnumKey y = true)
    (hlen : (x :: (mid ++ [y])).length ≤ 512)
    (h3 : 3 ≤ (x :: (mid ++ [y])).length) :
    sanitize_space_key (String.mk (x :: (mid ++ [y])))
      = String.mk (x :: (mid ++ [y])) := by
  unfold sanitize_space_key
  rw [if_neg (by
    intro h
    have := congrArg String.data h
    simp at this)]
  dsimp only
  rw [map_allowed_id _ hall]
  rw [if_neg (show ¬((x :: (mid ++ [y])).length > 512) from by omega)]
  rw [if_neg (show ¬(x :: (mid ++ [y]) = []) from by simp)]
  rw [show fixHead (x :: (mid ++ [y])) = x :: (mid ++ [y]) from
    fixHead_of_alnum x (mid ++ [y]) hx]
  rw [show x :: (mid ++ [y]) = (x :: mid) ++ [y] from rfl]
  rw [fixLast_of_alnum _ _ hy]
  rw [pad3_of_ge _ (by simpa using h3)]

/-- Recover the three components of `"<a>__<b>__<c>"` when `a` and `b` are
underscore-free: split at the first two `"__"` occurrences. -/
def decode_triple (s : List Char) : List Char × List Char × List Char :=
  let a := s.takeWhile (fun ch => ch != '_')
  let r := (s.dropWhile (fun ch => ch != '_')).drop 2
  let b := r.takeWhile (fun ch => ch != '_')
  let c := (r.dropWhile (fun ch => ch != '_')).drop 2
  (a, b, c)

theorem takeWhile_append_of_all (p : Char → Bool) (a l : List Char)
    (h : ∀ ch ∈ a, p ch = true) :
    (a ++ l).takeWhile p = a ++ l.takeWhile p := by
  induction a with
  | nil => simp
  | cons x xs ih =>
    rw [List.cons_append, List.takeWhile_cons, if_pos (h x (by simp))]
    rw [List.cons_append, ih (fun ch hc => h ch (by simp [hc]))]

theorem dropWhile_append_of_all (p : Char → Bool) (a l : List Char)
    (h : ∀ ch ∈ a, p ch = true) :
    (a ++ l).dropWhile p = l.dropWhile p := by
  induction a with
  | nil => simp
  | cons x xs ih =>
    rw [List.cons_append, List.dropWhile_cons, if_pos (h x (by simp))]
    exact ih (fun ch hc => h ch (by simp [hc]))

theorem decode_encode (a b c : List Char)
    (ha : ∀ ch ∈ a, (ch != '_') = true)
    (hb : ∀ ch ∈ b, (ch != '_') = true) :
    decode_triple (a ++ '_' :: '_' :: (b ++ '_' :: '_' :: c)) = (a, b, c) := by
  unfold decode_triple
  rw [takeWhile_append_of_all _ _ _ ha, dropWhile_append_of_all _ _ _ ha]
  simp only [List.takeWhile_cons, List.dropWhile_cons, bne_self_eq_false,
    Bool.false_eq_true, if_false, List.append_nil, List.drop_succ_cons,
    List.drop_zero]
  rw [takeWhile_append_of_all _ _ _ hb, dropWhile_append_of_all _ _ _ hb]
  simp

/-- C7 (amended): the space-key derivation
`sanitize("<provider>__<model>__<embed_type>")` is injective when restricted
to triples whose components use only allowed characters (`[a-zA-Z0-9.-]`)
without underscores, whose provider starts and embed_type ends with an
alphanumeric character, and whose combined length is at most 512 — which
covers the shipped provider names and embed types; without these
restrictions distinct triples can collide (see the counterexample). -/
theorem space_key_injective_on_clean (a b c a₂ b₂ c₂ : String)
    (hA : ∀ ch ∈ a.data, allowedChar ch = true ∧ ch ≠ '_')
    (hB : ∀ ch ∈ b.data, allowedChar ch = true ∧ ch ≠ '_')
    (hC : ∀ ch ∈ c.data, allowedChar ch = true ∧ ch ≠ '_')
    (hA₂ : ∀ ch ∈ a₂.data, allowedChar ch = true ∧ ch ≠ '_')
    (hB₂ : ∀ ch ∈ b₂.data, allowedChar ch = true ∧ ch ≠ '_')
    (hC₂ : ∀ ch ∈ c₂.data, allowedChar ch = true ∧ ch ≠ '_')
    (hx : ∃ x xs, a.data = x :: xs ∧ isAlnumKey x = true)
    (hx₂ : ∃ x xs, a₂.data = x :: xs ∧ isAlnumKey x = true)
    (hy : ∃ ys y, c.data = ys ++ [y] ∧ isAlnumKey y = true)
    (hy₂ : ∃ ys y, c₂.data = ys ++ [y] ∧ isAlnumKey y = true)
    (hlen : a.data.length + b.data.length + c.data.length + 4 ≤ 512)
    (hlen₂ : a₂.data.length + b₂.data.length + c₂.data.length + 4 ≤ 512)
    (heq : generate_space_key a b c = generate_space_key a₂ b₂ c₂) :
    a = a₂ ∧ b = b₂ ∧ c = c₂ := by
  obtain ⟨x, xs, hxa, hxal⟩ := hx
  obtain ⟨x₂, xs₂, hxa₂, hxal₂⟩ := hx₂
  obtain ⟨ys, y, hyc, hyal⟩ := hy
  obtain ⟨ys₂, y₂, hyc₂, hyal₂⟩ := hy₂
  have hdata : ∀ (u v w : String),
      (u ++ "__" ++ v ++ "__" ++ w).data
        = u.data ++ '_' :: '_' :: (v.data ++ '_' :: '_' :: w.data) := by
    intro u v w
    simp [String.data_append]
  have hform : ∀ (u v w : String) (z : Char) (zs : List Char) (t : Char)
      (ts : List Char), u.data = z :: zs → w.data = ts ++ [t] →
      (u ++ "__" ++ v ++ "__" ++ w).data
        = z :: ((zs ++ '_' :: '_' :: v.data ++ '_' :: '_' :: ts) ++ [t]) := by
    intro u v w z zs t ts hu hw
    rw [hdata, hu, hw]
    simp
  have hsan : ∀ (u v w : String) (z : Char) (zs : List Char) (t : Char)
      (ts : List Char), u.data = z :: zs → w.data = ts ++ [t] →
      isAlnumKey z = true → isAlnumKey t = true →
      (∀ ch ∈ u.data, allowedChar ch = true) →
      (∀ ch ∈ v.data, allowedChar ch = true) →
      (∀ ch ∈ w.data, allowedChar ch = true) →
      u.data.length + v.data.length + w.data.length + 4 ≤ 512 →
      generate_space_key u v w = u ++ "__" ++ v ++ "__" ++ w := by
    intro u v w z zs t ts hu hw hz ht hau hav haw hl
    have hmk : (u ++ "__" ++ v ++ "__" ++ w)
        = String.mk (z :: ((zs ++ '_' :: '_' :: v.data ++ '_' :: '_' :: ts)
            ++ [t])) := by
      have := hform u v w z zs t ts hu hw
      exact String.ext this
    unfold generate_space_key
    rw [hmk]
    refine sanitize_eq_self _ _ _ ?_ hz ht ?_ (by simp; omega)
    · intro ch hc
      have hc₂ : ch ∈ (u ++ "__" ++ v ++ "__" ++ w).data := by
        rw [hform u v w z zs t ts hu hw]
        exact hc
      rw [hdata] at hc₂
      simp only [List.mem_append, List.mem_cons] at hc₂
      rcases hc₂ with h | rfl | rfl | h | rfl | rfl | h
      · exact hau ch h
      · decide
      · decide
      · exact hav ch h
      · decide
      · decide
      · exact haw ch h
    · have h₁ : (z :: ((zs ++ '_' :: '_' :: v.data ++ '_' :: '_' :: ts)
          ++ [t])).length = u.data.length + v.data.length + w.data.length
            + 4 := by
        have h₂ := congrArg List.length (hform u v w z zs t ts hu hw)
        rw [hdata] at h₂
        simp at h₂ ⊢
        omega
      omega
  have e₁ := hsan a b c x xs y ys hxa hyc hxal hyal
    (fun ch hc => (hA ch hc).1) (fun ch hc => (hB ch hc).1)
    (fun ch hc => (hC ch hc).1) hlen
  have e₂ := hsan a₂ b₂ c₂ x₂ xs₂ y₂ ys₂ hxa₂ hyc₂ hxal₂ hyal₂
    (fun ch hc => (hA₂ ch hc).1) (fun ch hc => (hB₂ ch hc).1)
    (fun ch hc => (hC₂ ch hc).1) hlen₂
  rw [e₁, e₂] at heq
  have hdeq := congrArg String.data heq
  rw [hdata, hdata] at hdeq
  have hdec₁ := decode_encode a.data b.data c.data
    (fun ch hc => by simpa using (hA ch hc).2)
    (fun ch hc => by simpa using (hB ch hc).2)
  have hdec₂ := decode_encode a₂.data b₂.data c₂.data
    (fun ch hc => by simpa using (hA₂ ch hc).2)
    (fun ch hc => by simpa using (hB₂ ch hc).2)
  rw [hdeq] at hdec₁
  rw [hdec₂] at hdec₁
  injection hdec₁ with h₁ hbc
  injection hbc with h₂ h₃
  exact ⟨(String.ext h₁).symm, (String.ext h₂).symm, (String.ext h₃).symm⟩

/-- C7 witness: the amended injectivity applied to the shipped local CLIP
text-space triple. -/
theorem space_key_injective_on_clean_witness :
    ("local" : String) = "local" ∧ ("clip" : String) = "clip"
      ∧ ("text" : String) = "text" :=
  space_key_injective_on_clean "local" "clip" "text" "local" "clip" "text"
    (by decide) (by decide) (by decide) (by decide) (by decide) (by decide)
    ⟨'l', "ocal".data, rfl, rfl⟩ ⟨'l', "ocal".data, rfl, rfl⟩
    ⟨"tex".data, 't', by decide, rfl⟩ ⟨"tex".data, 't', by decide, rfl⟩
    (by decide) (by decide) rfl

/-! ## C9: lemmas on the HF reranker selection -/

theorem pyIndex_mem {α : Type} {l : List α} {i : Int} {m : α}
    (h : pyIndex l i = some m) : m ∈ l := by
  unfold pyIndex at h
  split_ifs at h
  · exact List.get?_mem h
  · exact List.get?_mem h

theorem filtered_index_map_bounds (ds : List Document) :
    ∀ (k : Nat), ∀ j ∈ (get_filtered_docs k ds).2, k ≤ j ∧ j < k + ds.length := by
  induction ds with
  | nil => intro k j hj; simp [get_filtered_docs] at hj
  | cons d rest ih =>
    intro k j hj
    unfold get_filtered_docs at hj
    dsimp only at hj
    by_cases ht : pyStrip d.page_content = ""
    · rw [if_pos ht] at hj
      have := ih (k + 1) j hj
      constructor <;> [omega; (simp only [List.length_cons]; omega)]
    · rw [if_neg ht] at hj
      simp only [List.mem_cons] at hj
      rcases hj with rfl | hj
      · simp
      · have := ih (k + 1) j hj
        constructor <;> [omega; (simp only [List.length_cons]; omega)]

theorem filtered_index_map_nodup (ds : List Document) :
    ∀ (k : Nat), (get_filtered_docs k ds).2.Nodup := by
  induction ds with
  | nil => intro k; simp [get_filtered_docs]
  | cons d rest ih =>
    intro k
    unfold get_filtered_docs
    dsimp only
    by_cases ht : pyStrip d.page_content = ""
    · rw [if_pos ht]; exact ih (k + 1)
    · rw [if_neg ht]
      refine List.nodup_cons.mpr ⟨?_, ih (k + 1)⟩
      intro hk
      have := (filtered_index_map_bounds rest (k + 1) k hk).1
      omega

theorem select_nodup_bounds (im : List Nat) (n : Nat)
    (him : ∀ j ∈ im, j < n) :
    ∀ (rs : List (Option Int)) (sel : List Nat), sel.Nodup →
      (∀ j ∈ sel, j < n) →
      (select_from_results im rs sel).Nodup
        ∧ ∀ j ∈ select_from_results im rs sel, j < n := by
  intro rs
  induction rs with
  | nil => intro sel hnd hb; exact ⟨hnd, hb⟩
  | cons r rest ih =>
    intro sel hnd hb
    unfold select_from_results
    cases r with
    | none => dsimp only; exact ih sel hnd hb
    | some i =>
      dsimp only
      cases hpi : pyIndex im i with
      | none => exact ih sel hnd hb
      | some m =>
        dsimp only
        by_cases hm : m ∈ sel
        · rw [if_pos hm]; exact ih sel hnd hb
        · rw [if_neg hm]
          refine ih (sel ++ [m]) ?_ ?_
          · simp [List.nodup_append, hnd, hm]
          · intro j hj
            rcases List.mem_append.mp hj with hj | hj
            · exact hb j hj
            · rw [List.mem_singleton.mp hj]
              exact him m (pyIndex_mem hpi)

theorem fill_go_sel_subset (limit : Nat) :
    ∀ (l sel : List Nat) (x : Nat), x ∈ sel → x ∈ fill_go limit sel l := by
  intro l
  induction l with
  | nil => intro sel x hx; exact hx
  | cons idx rest ih =>
    intro sel x hx
    unfold fill_go
    dsimp only
    by_cases hm : idx ∈ sel
    · rw [if_pos hm]
      split
      · exact hx
      · exact ih sel x hx
    · rw [if_neg hm]
      split
      · simp [hx]
      · exact ih (sel ++ [idx]) x (by simp [hx])

theorem fill_go_nodup_bounds (limit n : Nat) :
    ∀ (l sel : List Nat), sel.Nodup → (∀ j ∈ sel, j < n) →
      (∀ j ∈ l, j < n) →
      (fill_go limit sel l).Nodup ∧ ∀ j ∈ fill_go limit sel l, j < n := by
  intro l
  induction l with
  | nil => intro sel hnd hb _; exact ⟨hnd, hb⟩
  | cons idx rest ih =>
    intro sel hnd hb hl
    unfold fill_go
    dsimp only
    by_cases hm : idx ∈ sel
    · rw [if_pos hm]
      split
      · exact ⟨hnd, hb⟩
      · exact ih sel hnd hb (fun j hj => hl j (by simp [hj]))
    · rw [if_neg hm]
      have hnd₂ : (sel ++ [idx]).Nodup := by
        simp [List.nodup_append, hnd, hm]
      have hb₂ : ∀ j ∈ sel ++ [idx], j < n := by
        intro j hj
        rcases List.mem_append.mp hj with hj | hj
        · exact hb j hj
        · rw [List.mem_singleton.mp hj]
          exact hl idx (by simp)
      split
      · exact ⟨hnd₂, hb₂⟩
      · exact ih _ hnd₂ hb₂ (fun j hj => hl j (by simp [hj]))

theorem fill_go_le (limit : Nat) :
    ∀ (l sel : List Nat), sel.length < limit →
      (fill_go limit sel l).length ≤ limit := by
  intro l
  induction l with
  | nil => intro sel h; exact Nat.le_of_lt h
  | cons idx rest ih =>
    intro sel h
    unfold fill_go
    dsimp only
    by_cases hm : idx ∈ sel
    · rw [if_pos hm]
      split
      · omega
      · exact ih sel h
    · rw [if_neg hm]
      split
      · rename_i hstop
        simp only [List.length_append, List.length_singleton]
        omega
      · rename_i hstop
        refine ih (sel ++ [idx]) ?_
        simp only [List.length_append, List.length_singleton] at hstop ⊢
        omega

theorem fill_go_all_of_lt (limit : Nat) :
    ∀ (l sel : List Nat), (fill_go limit sel l).length < limit →
      ∀ x ∈ l, x ∈ fill_go limit sel l := by
  intro l
  induction l with
  | nil => intro sel _ x hx; simp at hx
  | cons idx rest ih =>
    intro sel hlt x hx
    rw [fill_go] at hlt ⊢
    by_cases hm : idx ∈ sel
    · rw [if_pos hm] at hlt ⊢
      by_cases hstop : limit ≤ sel.length
      · rw [if_pos hstop] at hlt
        exact absurd hlt (by omega)
      · rw [if_neg hstop] at hlt ⊢
        rcases List.mem_cons.mp hx with rfl | hx
        · exact fill_go_sel_subset limit rest sel x hm
        · exact ih sel hlt x hx
    · rw [if_neg hm] at hlt ⊢
      by_cases hstop : limit ≤ (sel ++ [idx]).length
      · rw [if_pos hstop] at hlt
        exact absurd hlt (by omega)
      · rw [if_neg hstop] at hlt ⊢
        rcases List.mem_cons.mp hx with rfl | hx
        · exact fill_go_sel_subset limit rest _ x (by simp)
        · exact ih (sel ++ [idx]) hlt x hx

theorem nodup_bounded_length_le (l : List Nat) (n : Nat) (hnd : l.Nodup)
    (hb : ∀ x ∈ l, x < n) : l.length ≤ n := by
  have h₁ : l.toFinset ⊆ Finset.range n := fun x hx =>
    Finset.mem_range.mpr (hb x (List.mem_toFinset.mp hx))
  have h₂ := Finset.card_le_card h₁
  rw [List.toFinset_card_of_nodup hnd] at h₂
  simpa using h₂

theorem length_ge_of_range_subset (l : List Nat) (n : Nat) (hnd : l.Nodup)
    (hall : ∀ x, x < n → x ∈ l) : n ≤ l.length := by
  have h₁ : Finset.range n ⊆ l.toFinset := fun x hx =>
    List.mem_toFinset.mpr (hall x (Finset.mem_range.mp hx))
  have h₂ := Finset.card_le_card h₁
  rw [List.toFinset_card_of_nodup hnd] at h₂
  simpa using h₂

theorem fill_go_range_length (limit n : Nat) (sel : List Nat)
    (hnd : sel.Nodup) (hb : ∀ j ∈ sel, j < n) (hlt : sel.length < limit) :
    (fill_go limit sel (List.range n)).length = min limit n := by
  have hF := fill_go_nodup_bounds limit n (List.range n) sel hnd hb
    (fun j hj => List.mem_range.mp hj)
  have hle := fill_go_le limit (List.range n) sel hlt
  have hleN := nodup_bounded_length_le _ n hF.1 hF.2
  by_cases h : (fill_go limit sel (List.range n)).length < limit
  · have hall : ∀ x, x < n → x ∈ fill_go limit sel (List.range n) :=
      fun x hx => fill_go_all_of_lt limit (List.range n) sel h x
        (List.mem_range.mpr hx)
    have hge := length_ge_of_range_subset _ n hF.1 hall
    omega
  · omega

theorem selected_nodup_bounds (results : List (Option Int)) (im : List Nat)
    (n limit : Nat) (him : ∀ j ∈ im, j < n) :
    (get_selected_indices results im n limit).Nodup
      ∧ ∀ j ∈ get_selected_indices results im n limit, j < n := by
  unfold get_selected_indices
  dsimp only
  have hsel := select_nodup_bounds im n him results [] (by simp) (by simp)
  split
  · simp
  · split
    · exact fill_go_nodup_bounds limit n (List.range n) _ hsel.1 hsel.2
        (fun j hj => List.mem_range.mp hj)
    · exact hsel

theorem selected_take_length (results : List (Option Int)) (im : List Nat)
    (n limit : Nat) (him : ∀ j ∈ im, j < n)
    (hne : select_from_results im results [] ≠ []) :
    ((get_selected_indices results im n limit).take limit).length
      = min limit n := by
  unfold get_selected_indices
  dsimp only
  rw [if_neg hne]
  have hsel := select_nodup_bounds im n him results [] (by simp) (by simp)
  by_cases hlt : (select_from_results im results []).length < limit
  · rw [if_pos hlt, List.length_take,
      fill_go_range_length limit n _ hsel.1 hsel.2 hlt]
    omega
  · rw [if_neg hlt, List.length_take]
    have hln := nodup_bounded_length_le _ n hsel.1 hsel.2
    omega

theorem filterMap_get_length (docs : List Document) (idxs : List Nat)
    (hb : ∀ j ∈ idxs, j < docs.length) :
    (idxs.filterMap (fun i => docs.get? i)).length = idxs.length := by
  induction idxs with
  | nil => rfl
  | cons j rest ih =>
    rw [List.filterMap_cons]
    rw [List.get?_eq_get (hb j (by simp))]
    simp only [List.length_cons]
    rw [ih (fun x hx => hb x (by simp [hx]))]

theorem range_filterMap_get (docs : List Document) :
    ∀ m : Nat, (List.range m).filterMap (fun i => docs.get? i)
      = docs.take m := by
  intro m
  induction m with
  | zero => simp
  | succ m ih =>
    rw [List.range_succ, List.filterMap_append, ih, List.take_succ]
    congr 1
    simp only [List.filterMap_cons, List.filterMap_nil]
    cases h : docs.get? m
    · rw [List.get?_eq_getElem?] at h; simp [h]
    · rw [List.get?_eq_getElem?] at h; simp [h]

/-- All branches of `compress_documents` return exactly
`min limit len(documents)` documents, where `limit` is the configured topk
(or the document count when non-positive). -/
theorem compress_length (hf_topk : Int) (resp : Option (List (Option Int)))
    (docs : List Document) :
    (compress_documents hf_topk resp docs).length
      = min (if 0 < hf_topk then hf_topk.toNat else docs.length)
          docs.length := by
  unfold compress_documents
  split
  · rename_i hde
    simp [List.isEmpty_iff.mp hde]
  · dsimp only
    have him : ∀ j ∈ (get_filtered_docs 0 docs).2, j < docs.length :=
      fun j hj => by simpa using (filtered_index_map_bounds docs 0 j hj).2
    set limit := if 0 < hf_topk then hf_topk.toNat else docs.length with hlim
    split
    · exact List.length_take limit docs
    · split
      · exact List.length_take limit docs
      · rename_i results
        split
        · exact List.length_take limit docs
        · rename_i hselne
          have hne : select_from_results (get_filtered_docs 0 docs).2 results
              [] ≠ [] := by
            intro h0
            apply hselne
            unfold get_selected_indices
            dsimp only
            rw [if_pos h0]
            rfl
          rw [filterMap_get_length docs _ (fun j hj =>
            (selected_nodup_bounds results _ docs.length _ him).2 j
              (List.mem_of_mem_take hj))]
          exact selected_take_length results _ docs.length _ him hne

/-- Every `compress_documents` output is a duplicate-free selection of input
documents. -/
theorem compress_is_selection (hf_topk : Int)
    (resp : Option (List (Option Int))) (docs : List Document) :
    ∃ idxs : List Nat, idxs.Nodup ∧ (∀ j ∈ idxs, j < docs.length)
      ∧ compress_documents hf_topk resp docs
          = idxs.filterMap (fun i => docs.get? i) := by
  have htake : ∀ limit : Nat, ∃ idxs : List Nat, idxs.Nodup
      ∧ (∀ j ∈ idxs, j < docs.length)
      ∧ docs.take limit = idxs.filterMap (fun i => docs.get? i) := by
    intro limit
    refine ⟨List.range (min limit docs.length), List.nodup_range _,
      fun j hj => by
        have := List.mem_range.mp hj
        omega, ?_⟩
    rw [range_filterMap_get docs (min limit docs.length)]
    by_cases h : limit ≤ docs.length
    · rw [min_eq_left h]
    · rw [min_eq_right (by omega), List.take_of_length_le (by omega),
        List.take_length]
  unfold compress_documents
  split
  · exact ⟨[], by simp⟩
  · dsimp only
    have him : ∀ j ∈ (get_filtered_docs 0 docs).2, j < docs.length :=
      fun j hj => by simpa using (filtered_index_map_bounds docs 0 j hj).2
    set limit := if 0 < hf_topk then hf_topk.toNat else docs.length with hlim
    split
    · exact htake limit
    · split
      · exact htake limit
      · rename_i results
        split
        · exact htake limit
        · refine ⟨(get_selected_indices results (get_filtered_docs 0 docs).2
            docs.length limit).take limit, ?_, ?_, rfl⟩
          · exact ((selected_nodup_bounds results _ docs.length limit
              him).1).sublist (List.take_sublist _ _)
          · intro j hj
            exact (selected_nodup_bounds results _ docs.length limit him).2 j
              (List.mem_of_mem_take hj)

/-- C9: with a positive configured `topk`, the HF reranker returns at most
`topk` documents, and its output is a duplicate-free selection of input
documents (a permutation of a subset, never synthesized content), on every
path: backend success, backend failure, empty-payload fallback, and padding. -/
theorem rerank_truncation_and_subset (docs : List Document) (hf_topk : Int)
    (resp : Option (List (Option Int))) (h : 0 < hf_topk) :
    (rerank_docs hf_topk resp docs).length ≤ hf_topk.toNat
    ∧ ∃ idxs : List Nat, idxs.Nodup ∧ (∀ j ∈ idxs, j < docs.length)
        ∧ rerank_docs hf_topk resp docs
            = idxs.filterMap (fun i => docs.get? i) := by
  constructor
  · rw [rerank_docs, compress_length, if_pos h]
    omega
  · exact compress_is_selection hf_topk resp docs

/-- C9 witness: the theorem evaluated on a two-document list with the
backend preferring the second document. -/
theorem rerank_truncation_and_subset_witness :
    (rerank_docs 1 (some [some 1, some 0]) [sampleDoc, sampleDoc]).length
        ≤ (1 : Int).toNat
    ∧ ∃ idxs : List Nat, idxs.Nodup
        ∧ (∀ j ∈ idxs, j < ([sampleDoc, sampleDoc] : List Document).length)
        ∧ rerank_docs 1 (some [some 1, some 0]) [sampleDoc, sampleDoc]
            = idxs.filterMap
                (fun i => ([sampleDoc, sampleDoc] : List Document).get? i) :=
  rerank_truncation_and_subset [sampleDoc, sampleDoc] 1
    (some [some 1, some 0]) (by decide)

/-! ## C8 -/

/-- C8 counterexample: with the local reranker configured at `topk = 1`, a
`query_text` call with `topk = 2`, `scale = 1` and two fetched candidates
requests `2` candidates but returns only `1` document — not
`min(k, candidates) = 2`: the reranker's own truncation caps the final
length below what the claim states. -/
theorem rerank_topk_caps_final_length :
    (query_text_rr (fun _ => [sampleDoc, sampleDoc]) 1 (some []) 2 1).1
        = 2 * max 1 1
    ∧ (query_text_rr (fun _ => [sampleDoc, sampleDoc]) 1 (some []) 2 1).2.length
        = 1
    ∧ min 2 ((fun (_ : Nat) => ([sampleDoc, sampleDoc] : List Document))
        (topk_scaled 2 1)).length = 2 :=
  ⟨rfl, rfl, rfl⟩

/-- C8 (amended): in `query_text` / `query_text_multi` with the local
reranker, the number of candidates requested from the store is exactly
`k · max(1, topk_rerank_scale)`; the final list has length
`min(k, candidates fetched)` provided the reranker's own configured topk is
at least `k` (the reranker returns `min(its topk, candidates)` documents, so
a smaller reranker topk caps the final length — see the counterexample). -/
theorem overfetch_and_final_length (fetch : Nat → List Document)
    (hf_topk : Int) (resp : Option (List (Option Int))) (topk scale : Nat)
    (h : (topk : Int) ≤ hf_topk) :
    (query_text_rr fetch hf_topk resp topk scale).1 = topk * max 1 scale
    ∧ (query_text_rr fetch hf_topk resp topk scale).2.length
        = min topk (fetch (topk_scaled topk scale)).length
    ∧ (query_text_multi_rr fetch hf_topk resp topk scale).1
        = topk * max 1 scale
    ∧ (query_text_multi_rr fetch hf_topk resp topk scale).2.length
        = min topk (fetch (topk_scaled topk scale)).length := by
  refine ⟨by unfold query_text_rr; dsimp only; split <;> rfl, ?_,
    by unfold query_text_multi_rr; dsimp only; split <;> rfl, ?_⟩
  · unfold query_text_rr
    dsimp only
    split
    · rename_i hde
      simp [List.isEmpty_iff.mp hde]
    · rw [List.length_take, rerank_docs, compress_length]
      by_cases hpos : 0 < hf_topk
      · rw [if_pos hpos]
        have ht : topk ≤ hf_topk.toNat := by omega
        omega
      · rw [if_neg hpos]
        omega
  · unfold query_text_multi_rr
    dsimp only
    split
    · rename_i hde
      simp [List.isEmpty_iff.mp hde]
    · rw [List.length_take, rerank_docs, compress_length]
      rw [show (review_page_content (fetch (topk_scaled topk scale))).length
          = (fetch (topk_scaled topk scale)).length from by
        simp [review_page_content]]
      by_cases hpos : 0 < hf_topk
      · rw [if_pos hpos]
        have ht : topk ≤ hf_topk.toNat := by omega
        omega
      · rw [if_neg hpos]
        omega

/-- C8 witness: the amended theorem at the shipped defaults
(`topk = 10`, `scale = 5`, reranker topk `10`). -/
theorem overfetch_and_final_length_witness :
    (query_text_rr (fun k => List.replicate k sampleDoc) 10 none 10 5).1
        = 10 * max 1 5
    ∧ (query_text_rr (fun k => List.replicate k sampleDoc) 10 none 10
        5).2.length
        = min 10 ((fun k => List.replicate k sampleDoc)
            (topk_scaled 10 5)).length
    ∧ (query_text_multi_rr (fun k => List.replicate k sampleDoc) 10 none 10
        5).1 = 10 * max 1 5
    ∧ (query_text_multi_rr (fun k => List.replicate k sampleDoc) 10 none 10
        5).2.length
        = min 10 ((fun k => List.replicate k sampleDoc)
            (topk_scaled 10 5)).length :=
  overfetch_and_final_length (fun k => List.replicate k sampleDoc) 10 none
    10 5 (by decide)

/-! ## C10 -/

/-- C10 counterexample: with no active store initialized (and any space key
argument), `query` raises `RuntimeError("store is not initialized")` from
`get_active_store` of the concrete managers — the result is an exception,
not the empty list the claim promises (the search is still never invoked). -/
theorem query_no_store_raises :
    (query noStoreState [] 10 none (some "k")).result
        = Except.error "store is not initialized"
    ∧ (query noStoreState [] 10 none (some "k")).result ≠ Except.ok []
    ∧ (query noStoreState [] 10 none (some "k")).search_invoked = false :=
  ⟨rfl, fun h => Except.noConfusion h, rfl⟩

/-- C10 (amended): with an empty query vector and an initialized active
store, `query` returns `[]` without invoking the backend search; with no
active store it raises (through the concrete managers' `get_active_store`)
instead of returning `[]`, and the search is also never invoked. -/
theorem query_guard_behaviour (st : MgrState) (vec : List Int) (topk : Nat)
    (filter : Option Dict) (sk : Option String) :
    ((activate_opt st sk).active_store = none →
        (query st vec topk filter sk).result
            = Except.error "store is not initialized"
        ∧ (query st vec topk filter sk).search_invoked = false)
    ∧ (∀ b, (activate_opt st sk).active_store = some b → vec = [] →
        (query st vec topk filter sk).result = Except.ok []
        ∧ (query st vec topk filter sk).search_invoked = false) := by
  constructor
  · intro h
    exact ⟨by simp [query, h], by simp [query, h]⟩
  · intro b hb hv
    subst hv
    exact ⟨by simp [query, hb], by simp [query, hb]⟩

/-- C10 witness: the amended theorem at an uninitialized manager and at an
initialized manager with an empty query vector. -/
theorem query_guard_behaviour_witness :
    ((query noStoreState [1] 10 none none).result
        = Except.error "store is not initialized"
      ∧ (query noStoreState [1] 10 none none).search_invoked = false)
    ∧ ((query okState [] 10 none none).result = Except.ok []
      ∧ (query okState [] 10 none none).search_invoked = false) :=
  ⟨(query_guard_behaviour noStoreState [1] 10 none none).1 rfl,
   (query_guard_behaviour okState [] 10 none none).2 okBackend rfl rfl⟩

end Rag
